import Mathlib

set_option maxRecDepth 20000

/-!
Verification of the SuperPlus weekly shift generator (`shift_generator.py`).

The Python class `ShiftGenerator` is embedded as explicit state passing over
`GenState`; Python dictionaries become insertion-ordered association lists,
Python runtime errors (`KeyError`, `ValueError`, `IndexError`, `TypeError`)
become `none` in the `Option` monad.  Clock times are kept as the literal
strings the program manipulates; the Python `str` operations used by the
parser (`replace`, `split`, `in`) are modelled on `List Char`.
-/

/-! ## String helpers modelling the Python str operations used by the source -/

def hasPrefixL : List Char → List Char → Bool
  | [], _ => true
  | _ :: _, [] => false
  | p :: ps, c :: cs => p == c && hasPrefixL ps cs

/-- Python `pat in s` (substring containment). -/
def containsSub (pat : List Char) : List Char → Bool
  | [] => hasPrefixL pat []
  | c :: cs => hasPrefixL pat (c :: cs) || containsSub pat cs

/-- Python `s.replace(x, '')` for a single character `x`. -/
def removeAllChar (x : Char) : List Char → List Char
  | [] => []
  | c :: cs => if c == x then removeAllChar x cs else c :: removeAllChar x cs

def removePatAux (pat : List Char) : Nat → List Char → List Char
  | 0, s => s
  | _ + 1, [] => []
  | fuel + 1, c :: cs =>
    if hasPrefixL pat (c :: cs) then removePatAux pat fuel (List.drop (pat.length - 1) cs)
    else c :: removePatAux pat fuel cs

/-- Python `s.replace(pat, '')` for a non-empty pattern. -/
def removePat (pat s : List Char) : List Char := removePatAux pat s.length s

/-- Python `s.split(':')[0]`. -/
def takeUntilColon : List Char → List Char
  | [] => []
  | c :: cs => if c == ':' then [] else c :: takeUntilColon cs

/-- Python `int(s)` on a digit string. -/
def charsToNat (s : List Char) : Nat := s.foldl (fun acc c => acc * 10 + (c.toNat - 48)) 0

/-- The `parse` closure of `_calc_hours`, also `_parse_hour`: 12-hour clock
string to 24-hour value. -/
def parseHour (t : String) : Nat :=
  let u := removeAllChar ' ' t.data
  if containsSub "PM".data u then
    let h := charsToNat (takeUntilColon (removePat "PM".data u))
    if h ≠ 12 then h + 12 else h
  else
    let h := charsToNat (takeUntilColon (removePat "AM".data u))
    if h = 12 then 0 else h

/-- `_calc_hours`: duration between two clock times, wrapping past midnight
when the end is numerically before the start. -/
def calcHours (start stop : String) : Int :=
  let s : Int := parseHour start
  let e : Int := parseHour stop
  if e < s then (24 - s) + e else e - s

/-- The end-time formatting inside `_extend_shift`. -/
def fmtHour (h : Nat) : String :=
  if h = 12 then "12:00 PM"
  else if h > 12 then toString (h - 12) ++ ":00 PM"
  else toString h ++ ":00 AM"

/-! ## Data model -/

/-- A schedule cell: `'OFF'` or a `(start, end)` tuple of clock-time strings. -/
inductive Cell
  | off
  | mk (start stop : String)
deriving DecidableEq, Repr

structure StaffMember where
  name : String
  is_supervisor : Bool := false
  is_male : Bool := false
  is_auxiliary : Bool := false
  is_overnight_specialist : Bool := false
  prefers_long_shifts : Bool := false
  fixed_day_off : List String := []
  must_work : List String := []
  target_hours : Int := 40
deriving DecidableEq, Repr

/-- The `SHIFTS` dict: shift name to `(start, end, hours)`. -/
def SHIFTS (t : String) : Option (String × String × Int) :=
  if t = "morning" then some ("6:00 AM", "2:00 PM", 8)
  else if t = "midday" then some ("10:00 AM", "6:00 PM", 8)
  else if t = "afternoon" then some ("2:00 PM", "9:00 PM", 7)
  else if t = "extended_am" then some ("6:00 AM", "4:00 PM", 10)
  else if t = "extended_pm" then some ("12:00 PM", "9:00 PM", 9)
  else if t = "full_day" then some ("6:00 AM", "9:00 PM", 15)
  else if t = "overnight" then some ("8:00 PM", "6:00 AM", 10)
  else none

def DAYS : List String :=
  ["SUNDAY", "MONDAY", "TUESDAY", "WEDNESDAY", "THURSDAY", "FRIDAY", "SATURDAY"]

/-- The `DAILY_TARGETS` dict. -/
def DAILY_TARGETS (day : String) : Option Int :=
  if day = "SUNDAY" then some 8
  else if day = "MONDAY" then some 10
  else if day = "TUESDAY" then some 11
  else if day = "WEDNESDAY" then some 11
  else if day = "THURSDAY" then some 11
  else if day = "FRIDAY" then some 12
  else if day = "SATURDAY" then some 9
  else none

/-- The module-level `STAFF_ROSTER` (the reference roster). -/
def STAFF_ROSTER : List StaffMember := [
  { name := "KEVAUGHN", is_supervisor := true, is_male := true },
  { name := "MELLISA", is_supervisor := true },
  { name := "LIYONIE", is_supervisor := true },
  { name := "RICHIE", is_supervisor := true, is_male := true },
  { name := "RICHARD", is_male := true, fixed_day_off := ["SUNDAY", "WEDNESDAY"],
    must_work := ["SATURDAY"] },
  { name := "TANISHA", prefers_long_shifts := true },
  { name := "DENTON", is_male := true },
  { name := "BRITANNIA" },
  { name := "GEORGIA", prefers_long_shifts := true },
  { name := "STACEY" },
  { name := "ORVILLE", is_male := true },
  { name := "ROMONE", is_male := true },
  { name := "IEASHA" },
  { name := "RACQUEL", prefers_long_shifts := true },
  { name := "DELON", is_male := true, is_overnight_specialist := true },
  { name := "YONIQUE" },
  { name := "SHARMA", is_auxiliary := true },
  { name := "SASH", is_auxiliary := true }
]

/-! ## Generator state (the mutable fields of `ShiftGenerator`) -/

structure GenState where
  staff : List (String × StaffMember)
  schedule : List (String × List Cell)
  hours : List (String × Int)
  previous_sunday_workers : List String
deriving DecidableEq, Repr

/-- Python dict lookup `d[k]` (first matching key). -/
def dget {α : Type} (d : List (String × α)) (k : String) : Option α :=
  match d with
  | [] => none
  | (k0, v) :: rest => if k0 = k then some v else dget rest k

/-- Python dict update `d[k] = v` on an existing key (keys never added by the
generator after construction). -/
def dset {α : Type} (d : List (String × α)) (k : String) (v : α) : List (String × α) :=
  match d with
  | [] => []
  | (k0, v0) :: rest => if k0 = k then (k, v) :: rest else (k0, v0) :: dset rest k v

/-- Python dict-comprehension insert `{...}`: a duplicate key overwrites the
value but keeps the first occurrence's position. -/
def dictInsert {α : Type} : List (String × α) → String → α → List (String × α)
  | [], k, v => [(k, v)]
  | (k0, v0) :: rest, k, v =>
    if k0 = k then (k, v) :: rest else (k0, v0) :: dictInsert rest k v

def buildDict {α : Type} (roster : List StaffMember) (f : StaffMember → α) :
    List (String × α) :=
  roster.foldl (fun d s => dictInsert d s.name (f s)) []

/-- `ShiftGenerator.__init__`. -/
def initState (roster : List StaffMember) (previous : List String) : GenState :=
  { staff := buildDict roster (fun s => s),
    schedule := buildDict roster (fun _ => List.replicate 7 Cell.off),
    hours := buildDict roster (fun _ => (0 : Int)),
    previous_sunday_workers := previous }

/-! ## Constraint evaluator and primitive mutators -/

/-- `_get_staff_by_role`. -/
def getStaffByRole (st : GenState) (role : String) : List String :=
  if role = "supervisors" then
    (st.staff.filter (fun p => p.2.is_supervisor)).map (fun p => p.2.name)
  else if role = "males" then
    (st.staff.filter (fun p => p.2.is_male)).map (fun p => p.2.name)
  else if role = "overnight_eligible" then
    (st.staff.filter (fun p =>
      p.2.is_male && !p.2.is_supervisor && !p.2.is_overnight_specialist)).map (fun p => p.2.name)
  else if role = "overnight_specialist" then
    (st.staff.filter (fun p => p.2.is_overnight_specialist)).map (fun p => p.2.name)
  else if role = "auxiliary" then
    (st.staff.filter (fun p => p.2.is_auxiliary)).map (fun p => p.2.name)
  else if role = "regular" then
    (st.staff.filter (fun p =>
      !p.2.is_supervisor && !p.2.is_auxiliary && !p.2.is_overnight_specialist)).map
      (fun p => p.2.name)
  else []

/-- Python `DAYS.index(day)` (raises `ValueError` when absent). -/
def idxIn (day : String) : List String → Nat → Option Nat
  | [], _ => none
  | d :: ds, i => if d = day then some i else idxIn day ds (i + 1)

def dayIndexOf (day : String) : Option Nat := idxIn day DAYS 0

/-- `_can_work_day`. -/
def canWorkDay (st : GenState) (staff_name day : String) : Option Bool :=
  (dget st.staff staff_name).bind fun staff =>
  if day ∈ staff.fixed_day_off then some false
  else if day = "SUNDAY" ∧ staff_name ∈ st.previous_sunday_workers then some false
  else
    (dayIndexOf day).bind fun day_idx =>
    let prev_day_idx : Nat := (((day_idx : Int) - 1) % 7).toNat
    (dget st.schedule staff_name).bind fun row =>
    (row.get? prev_day_idx).bind fun prev_shift =>
    match prev_shift with
    | Cell.off => some true
    | Cell.mk s _ => some (if s = "8:00 PM" then false else true)

/-- `_closes_at_9pm`. -/
def closesAt9pm (st : GenState) (staff_name : String) (day_idx : Nat) : Option Bool :=
  (dget st.schedule staff_name).bind fun row =>
  (row.get? day_idx).bind fun shift =>
  match shift with
  | Cell.off => some false
  | Cell.mk _ e => some (e == "9:00 PM")

/-- `_can_open_next_day`. -/
def canOpenNextDay (st : GenState) (staff_name : String) (day_idx : Nat) : Option Bool :=
  if day_idx = 0 then some true
  else (closesAt9pm st staff_name (day_idx - 1)).map (fun b => !b)

/-- `_assign_shift`. -/
def assignShift (st : GenState) (staff_name : String) (day_idx : Nat)
    (shift_type : String) : Option (Bool × GenState) :=
  (dget st.schedule staff_name).bind fun row =>
  (row.get? day_idx).bind fun cur =>
  if cur ≠ Cell.off then some (false, st)
  else
    (SHIFTS shift_type).bind fun sdef =>
    (if sdef.1 = "6:00 AM" then canOpenNextDay st staff_name day_idx else some true).bind
      fun co =>
    if co = false then some (false, st)
    else
      (dget st.hours staff_name).bind fun h =>
      if h + sdef.2.2 > 48 then some (false, st)
      else some (true, { st with
        schedule := dset st.schedule staff_name (row.set day_idx (Cell.mk sdef.1 sdef.2.1)),
        hours := dset st.hours staff_name (h + sdef.2.2) })

/-- `_extend_shift`. -/
def extendShift (st : GenState) (staff_name : String) (day_idx : Nat)
    (extra_hours : Int) : Option (Bool × GenState) :=
  (dget st.schedule staff_name).bind fun row =>
  (row.get? day_idx).bind fun shift =>
  match shift with
  | Cell.off => some (false, st)
  | Cell.mk start stop =>
    if containsSub ("8:00 PM".data) start.data then some (false, st)
    else
      let end_hour : Nat := parseHour stop
      if end_hour ≥ 21 then some (false, st)
      else
        let max_extend : Int := 21 - (end_hour : Int)
        let actual_extend : Int := min (min extra_hours max_extend) 3
        if actual_extend ≤ 0 then some (false, st)
        else
          let new_end : String := fmtHour ((end_hour : Int) + actual_extend).toNat
          (dget st.hours staff_name).bind fun h =>
          some (true, { st with
            schedule := dset st.schedule staff_name
              (row.set day_idx (Cell.mk start new_end)),
            hours := dset st.hours staff_name (h + actual_extend) })

def dailyCountAux (day_idx : Nat) : List (String × List Cell) → Nat → Option Nat
  | [], acc => some acc
  | (_, row) :: rest, acc =>
    (row.get? day_idx).bind fun c =>
    match c with
    | Cell.off => dailyCountAux day_idx rest acc
    | Cell.mk s _ => dailyCountAux day_idx rest (if s = "8:00 PM" then acc else acc + 1)

/-- `_get_daily_count` (day staff, excluding overnight). -/
def getDailyCount (st : GenState) (day_idx : Nat) : Option Nat :=
  dailyCountAux day_idx st.schedule 0

/-- Sequence a `(Bool × GenState)` result, discarding the flag. -/
def tBind (r : Option (Bool × GenState)) (k : GenState → Option GenState) :
    Option GenState :=
  r.bind fun p => k p.2

/-- Drop the success flag of an assignment result. -/
def sndSt (r : Option (Bool × GenState)) : Option GenState :=
  r.map (fun p => p.2)

/-- Evaluate an `Option Bool` predicate over a list, keeping the hits
(a Python list comprehension with a possibly-crashing condition). -/
def filterO (p : String → Option Bool) : List String → Option (List String)
  | [] => some []
  | x :: xs =>
    (p x).bind fun b =>
    (filterO p xs).map fun rest => if b then x :: rest else rest

/-! ## Phase 1: `_assign_sunday` -/

def sundayCrewLoop : GenState → Nat → List String → Option GenState
  | st, _, [] => some st
  | st, assigned, name :: rest =>
    if assigned ≥ 5 then sundayCrewLoop st assigned rest
    else
      (assignShift st name 0 "full_day").bind fun p =>
      sundayCrewLoop p.2 (if p.1 then assigned + 1 else assigned) rest

def assignSunday (st : GenState) : Option GenState :=
  (filterO (fun s => canWorkDay st s "SUNDAY") (getStaffByRole st "supervisors")).bind
    fun available_sups =>
  (match available_sups with
   | [] => some st
   | s :: _ => sndSt (assignShift st s 0 "full_day")).bind fun st1 =>
  (filterO (fun s => canWorkDay st1 s "SUNDAY") (getStaffByRole st1 "auxiliary")).bind
    fun auxiliaries =>
  (match auxiliaries with
   | [] => some st1
   | s :: _ => sndSt (assignShift st1 s 0 "full_day")).bind fun st2 =>
  (filterO (fun s => (canWorkDay st2 s "SUNDAY").map (fun b => b && s != "RICHARD"))
      (getStaffByRole st2 "regular")).bind fun regulars =>
  (sundayCrewLoop st2 0 regulars).bind fun st3 =>
  match getStaffByRole st3 "overnight_specialist" with
  | [] => some st3
  | sp :: _ => sndSt (assignShift st3 sp 0 "overnight")

/-! ## Phase 2: `_assign_overnight` -/

def specNightsLoop : GenState → String → List Nat → Option GenState
  | st, _, [] => some st
  | st, sp, d :: ds =>
    (dget st.schedule sp).bind fun row =>
    (row.get? d).bind fun c =>
    if c = Cell.off then
      tBind (assignShift st sp d "overnight") fun st1 => specNightsLoop st1 sp ds
    else specNightsLoop st sp ds

def assignOvernight (st : GenState) : Option GenState :=
  (match getStaffByRole st "overnight_specialist" with
   | [] => some st
   | sp :: _ => specNightsLoop st sp [0, 2, 4, 6]).bind fun st1 =>
  tBind (assignShift st1 "DENTON" 5 "overnight") fun a =>
  tBind (assignShift a "ORVILLE" 1 "overnight") fun b =>
  sndSt (assignShift b "ROMONE" 3 "overnight")

/-! ## Phase 3: `_assign_supervisors` -/

def findSunSup : GenState → List String → Option (Option String)
  | _, [] => some none
  | st, s :: rest =>
    (dget st.schedule s).bind fun row =>
    (row.get? 0).bind fun c =>
    if c ≠ Cell.off then some (some s) else findSunSup st rest

def assignSupervisors (st : GenState) : Option GenState :=
  (findSunSup st (getStaffByRole st "supervisors")).bind fun sun_sup =>
  (if sun_sup = some "KEVAUGHN" then
    tBind (assignShift st "KEVAUGHN" 2 "extended_am") fun a =>
    tBind (assignShift a "KEVAUGHN" 4 "extended_am") fun b =>
    sndSt (assignShift b "KEVAUGHN" 5 "morning")
  else some st).bind fun st1 =>
  tBind (assignShift st1 "MELLISA" 1 "extended_pm") fun a =>
  tBind (assignShift a "MELLISA" 3 "extended_pm") fun b =>
  tBind (assignShift b "MELLISA" 4 "extended_pm") fun c =>
  tBind (assignShift c "MELLISA" 5 "extended_pm") fun d =>
  tBind (assignShift d "MELLISA" 6 "afternoon") fun e =>
  tBind (assignShift e "LIYONIE" 1 "extended_am") fun f =>
  tBind (assignShift f "LIYONIE" 2 "extended_am") fun g =>
  tBind (assignShift g "LIYONIE" 3 "extended_am") fun h =>
  tBind (assignShift h "LIYONIE" 6 "extended_am") fun i =>
  tBind (assignShift i "RICHIE" 2 "extended_pm") fun j =>
  tBind (assignShift j "RICHIE" 4 "extended_pm") fun k =>
  tBind (assignShift k "RICHIE" 5 "extended_pm") fun l =>
  tBind (assignShift l "RICHIE" 6 "afternoon") fun m =>
  sndSt (assignShift m "RICHIE" 3 "midday")

/-! ## Phase 4: `_assign_richard` -/

def assignRichard (st : GenState) : Option GenState :=
  tBind (assignShift st "RICHARD" 1 "extended_pm") fun a =>
  tBind (assignShift a "RICHARD" 2 "afternoon") fun b =>
  tBind (assignShift b "RICHARD" 4 "extended_pm") fun c =>
  tBind (assignShift c "RICHARD" 5 "afternoon") fun d =>
  sndSt (assignShift d "RICHARD" 6 "extended_pm")

/-! ## Phase 5: `_assign_auxiliary` -/

def assignAuxiliary (st : GenState) : Option GenState :=
  (dget st.schedule "SHARMA").bind fun row =>
  (row.get? 0).bind fun c0 =>
  if c0 ≠ Cell.off then
    tBind (assignShift st "SHARMA" 2 "morning") fun a =>
    tBind (assignShift a "SHARMA" 4 "morning") fun b =>
    tBind (assignShift b "SHARMA" 6 "morning") fun c =>
    tBind (assignShift c "SASH" 1 "morning") fun d =>
    tBind (assignShift d "SASH" 2 "afternoon") fun e =>
    tBind (assignShift e "SASH" 3 "midday") fun f =>
    tBind (assignShift f "SASH" 4 "afternoon") fun g =>
    sndSt (assignShift g "SASH" 5 "midday")
  else
    tBind (assignShift st "SASH" 2 "morning") fun a =>
    tBind (assignShift a "SASH" 4 "morning") fun b =>
    tBind (assignShift b "SASH" 6 "morning") fun c =>
    tBind (assignShift c "SHARMA" 1 "morning") fun d =>
    tBind (assignShift d "SHARMA" 2 "afternoon") fun e =>
    tBind (assignShift e "SHARMA" 3 "midday") fun f =>
    tBind (assignShift f "SHARMA" 4 "afternoon") fun g =>
    sndSt (assignShift g "SHARMA" 5 "midday")

/-! ## Phase 6: `_assign_regular_staff` with `_try_assign` and `_fill_remaining` -/

/-- `_try_assign`. -/
def tryAssign (st : GenState) (name : String) (day_idx : Nat) (shift_type : String) :
    Option (Bool × GenState) :=
  (dget st.schedule name).bind fun row =>
  (row.get? day_idx).bind fun c =>
  if c ≠ Cell.off then some (false, st)
  else
    (DAYS.get? day_idx).bind fun day =>
    (canWorkDay st name day).bind fun cw =>
    if cw = false then some (false, st)
    else
      (SHIFTS shift_type).bind fun sdef =>
      if sdef.1 = "6:00 AM" then
        (canOpenNextDay st name day_idx).bind fun co =>
        if co = false then assignShift st name day_idx "midday"
        else assignShift st name day_idx shift_type
      else assignShift st name day_idx shift_type

/-- The best-day search inside `_fill_remaining`. -/
def bestDayLoop (st : GenState) (name : String) :
    List Nat → Option Nat × Int → Option (Option Nat × Int)
  | [], acc => some acc
  | d :: ds, acc =>
    (dget st.schedule name).bind fun row =>
    (row.get? d).bind fun c =>
    if c ≠ Cell.off then bestDayLoop st name ds acc
    else
      (DAYS.get? d).bind fun day =>
      (canWorkDay st name day).bind fun cw =>
      if cw = false then bestDayLoop st name ds acc
      else
        (getDailyCount st d).bind fun cnt =>
        (DAILY_TARGETS day).bind fun target =>
        let room : Int := target - ((cnt : Int) + 1)
        if room > acc.2 then bestDayLoop st name ds (some d, room)
        else bestDayLoop st name ds acc

def fillRemainingGo : Nat → GenState → String → Option GenState
  | 0, st, _ => some st
  | fuel + 1, st, name =>
    (dget st.hours name).bind fun h =>
    if h ≥ 40 then some st
    else
      (bestDayLoop st name [1, 2, 3, 4, 5, 6] (none, -999)).bind fun acc =>
      match acc.1 with
      | none => some st
      | some bd =>
        (canOpenNextDay st name bd).bind fun co =>
        let remaining := 40 - h
        (if remaining ≥ 15 ∧ co = true ∧ acc.2 ≥ 0 then assignShift st name bd "full_day"
         else if remaining ≥ 10 ∧ co = true then assignShift st name bd "extended_am"
         else if remaining ≥ 8 ∧ co = true then assignShift st name bd "morning"
         else if remaining ≥ 8 then assignShift st name bd "midday"
         else if remaining ≥ 7 then assignShift st name bd "afternoon"
         else some (false, st)).bind fun p =>
        if p.1 then fillRemainingGo fuel p.2 name else some p.2

/-- `_fill_remaining` (`max_iterations = 10`). -/
def fillRemaining (st : GenState) (name : String) : Option GenState :=
  fillRemainingGo 10 st name

/-- The `any(...)` overnight test in `_assign_regular_staff`. -/
def hasOvernightRow (row : List Cell) : Bool :=
  row.any fun c => match c with
    | Cell.off => false
    | Cell.mk s _ => s == "8:00 PM"

def sundayWorkersLoop : GenState → Nat → List String → Option GenState
  | st, _, [] => some st
  | st, i, name :: rest =>
    (dget st.schedule name).bind fun row =>
    (if hasOvernightRow row then
      tBind (tryAssign st name 1 "midday") fun a =>
      sndSt (tryAssign a name 3 "afternoon")
    else if i % 5 = 0 then
      tBind (tryAssign st name 1 "midday") fun a =>
      tBind (tryAssign a name 3 "extended_am") fun b =>
      sndSt (tryAssign b name 5 "afternoon")
    else if i % 5 = 1 then
      tBind (tryAssign st name 3 "extended_am") fun a =>
      sndSt (tryAssign a name 5 "full_day")
    else if i % 5 = 2 then
      tBind (tryAssign st name 1 "midday") fun a =>
      tBind (tryAssign a name 3 "extended_am") fun b =>
      sndSt (tryAssign b name 6 "afternoon")
    else if i % 5 = 3 then
      tBind (tryAssign st name 3 "full_day") fun a =>
      sndSt (tryAssign a name 5 "extended_am")
    else
      tBind (tryAssign st name 1 "midday") fun a =>
      tBind (tryAssign a name 5 "extended_am") fun b =>
      sndSt (tryAssign b name 6 "afternoon")).bind fun stP =>
    (fillRemaining stP name).bind fun stF =>
    sundayWorkersLoop stF (i + 1) rest

/-- The `for d in range(7)` search for the overnight day. -/
def findOvernightDay (row : List Cell) : List Nat → Option Nat
  | [] => none
  | d :: ds =>
    match row.get? d with
    | some (Cell.mk s _) => if s = "8:00 PM" then some d else findOvernightDay row ds
    | _ => findOvernightDay row ds

def overnightMalesLoop : GenState → List String → Option GenState
  | st, [] => some st
  | st, name :: rest =>
    (dget st.schedule name).bind fun row =>
    (row.get? 0).bind fun c0 =>
    if c0 ≠ Cell.off then overnightMalesLoop st rest
    else
      match findOvernightDay row [0, 1, 2, 3, 4, 5, 6] with
      | none => none
      | some od =>
        ((if od = 1 then
            tBind (tryAssign st name 3 "extended_am") fun a =>
            tBind (tryAssign a name 4 "full_day") fun b =>
            sndSt (tryAssign b name 6 "morning")
          else if od = 3 then
            tBind (tryAssign st name 2 "full_day") fun a =>
            tBind (tryAssign a name 5 "extended_am") fun b =>
            sndSt (tryAssign b name 6 "afternoon")
          else if od = 5 then
            tBind (tryAssign st name 2 "full_day") fun a =>
            sndSt (tryAssign a name 4 "full_day")
          else some st).bind fun stP =>
        (fillRemaining stP name).bind fun stF =>
        overnightMalesLoop stF rest)

def nonSundayLoop : GenState → Nat → List String → Option GenState
  | st, _, [] => some st
  | st, i, name :: rest =>
    ((if i % 4 = 0 then
        tBind (tryAssign st name 1 "full_day") fun a =>
        tBind (tryAssign a name 3 "full_day") fun b =>
        sndSt (tryAssign b name 5 "extended_am")
      else if i % 4 = 1 then
        tBind (tryAssign st name 2 "full_day") fun a =>
        tBind (tryAssign a name 4 "full_day") fun b =>
        sndSt (tryAssign b name 5 "extended_am")
      else if i % 4 = 2 then
        tBind (tryAssign st name 1 "full_day") fun a =>
        tBind (tryAssign a name 3 "full_day") fun b =>
        sndSt (tryAssign b name 4 "extended_am")
      else
        tBind (tryAssign st name 2 "full_day") fun a =>
        tBind (tryAssign a name 5 "full_day") fun b =>
        sndSt (tryAssign b name 6 "extended_am")).bind fun stP =>
    (fillRemaining stP name).bind fun stF =>
    nonSundayLoop stF (i + 1) rest)

def assignRegularStaff (st : GenState) : Option GenState :=
  let regular := (getStaffByRole st "regular").filter (fun s => s != "RICHARD")
  (filterO (fun s => (dget st.schedule s).bind fun row =>
      (row.get? 0).map (fun c => c != Cell.off)) regular).bind fun sunday_workers =>
  (filterO (fun s => (dget st.schedule s).bind fun row =>
      (row.get? 0).map (fun c =>
        (c == Cell.off) && !(["DENTON", "ORVILLE", "ROMONE"].contains s))) regular).bind
    fun non_sunday =>
  (sundayWorkersLoop st 0 sunday_workers).bind fun st1 =>
  (overnightMalesLoop st1 ["DENTON", "ORVILLE", "ROMONE"]).bind fun st2 =>
  nonSundayLoop st2 0 non_sunday

/-! ## Phase 7: `_fine_tune_hours` -/

def extendPass : GenState → String → Int → List Nat → Option (Bool × GenState)
  | st, _, _, [] => some (false, st)
  | st, name, needed, d :: ds =>
    (dget st.schedule name).bind fun row =>
    (row.get? d).bind fun c =>
    match c with
    | Cell.off => extendPass st name needed ds
    | Cell.mk _ _ =>
      (extendShift st name d (min needed 3)).bind fun p =>
      if p.1 then some (true, p.2) else extendPass p.2 name needed ds

def addPass : GenState → String → Int → List Nat → Option (Bool × GenState)
  | st, _, _, [] => some (false, st)
  | st, name, needed, d :: ds =>
    (DAYS.get? d).bind fun day =>
    (canWorkDay st name day).bind fun cw =>
    if cw = false then addPass st name needed ds
    else
      (dget st.schedule name).bind fun row =>
      (row.get? d).bind fun c =>
      if c ≠ Cell.off then addPass st name needed ds
      else
        (canOpenNextDay st name d).bind fun co =>
        (if co = true then
          if needed ≥ 10 then assignShift st name d "extended_am"
          else if needed ≥ 8 then assignShift st name d "morning"
          else assignShift st name d "afternoon"
        else
          if needed ≥ 8 then assignShift st name d "midday"
          else assignShift st name d "afternoon").bind fun p =>
        if p.1 then some (true, p.2) else addPass p.2 name needed ds

/-- The `while current < 40` loop of `_fine_tune_hours` for one staff member.
Each successful iteration raises the running total by at least one hour, so
48 iterations are never exhausted on states reachable from `initState`. -/
def fineTuneGo : Nat → GenState → String → Option GenState
  | 0, st, _ => some st
  | fuel + 1, st, name =>
    (dget st.hours name).bind fun current =>
    if current ≥ 40 then some st
    else
      (extendPass st name (40 - current) [0, 1, 2, 3, 4, 5, 6]).bind fun pe =>
      if pe.1 then fineTuneGo fuel pe.2 name
      else
        (addPass pe.2 name (40 - current) [1, 2, 3, 4, 5, 6]).bind fun pa =>
        if pa.1 then fineTuneGo fuel pa.2 name else some pa.2

def fineTuneOne (st : GenState) (name : String) : Option GenState :=
  (dget st.hours name).bind fun _current =>
  (dget st.staff name).bind fun staff =>
  if staff.is_overnight_specialist then some st
  else fineTuneGo 48 st name

def fineTuneLoop : GenState → List String → Option GenState
  | st, [] => some st
  | st, name :: rest => (fineTuneOne st name).bind fun st1 => fineTuneLoop st1 rest

def fineTuneHours (st : GenState) : Option GenState :=
  fineTuneLoop st (st.schedule.map (fun p => p.1))

/-! ## `generate_schedule` -/

def generateSchedule (st : GenState) : Option GenState :=
  (assignSunday st).bind fun st1 =>
  (assignOvernight st1).bind fun st2 =>
  (assignSupervisors st2).bind fun st3 =>
  (assignRichard st3).bind fun st4 =>
  (assignAuxiliary st4).bind fun st5 =>
  (assignRegularStaff st5).bind fun st6 =>
  fineTuneHours st6

def generate_schedule (roster : List StaffMember) (previous : List String) :
    Option GenState :=
  generateSchedule (initState roster previous)

/-! ## Summary accessors (`get_sunday_workers`, `get_summary`) -/

def sundayWorkersOf : List (String × List Cell) → Option (List String)
  | [] => some []
  | (n, row) :: rest =>
    (row.get? 0).bind fun c =>
    (sundayWorkersOf rest).map fun ws => if c ≠ Cell.off then n :: ws else ws

/-- `get_sunday_workers`. -/
def get_sunday_workers (st : GenState) : Option (List String) :=
  sundayWorkersOf st.schedule

def countNonOff (day_idx : Nat) : List (String × List Cell) → Option Nat
  | [] => some 0
  | (_, row) :: rest =>
    (row.get? day_idx).bind fun c =>
    (countNonOff day_idx rest).map fun n => if c ≠ Cell.off then n + 1 else n

def dailyCountsAux (st : GenState) : List String → Nat → Option (List (String × Nat))
  | [], _ => some []
  | day :: rest, i =>
    (countNonOff i st.schedule).bind fun c =>
    (dailyCountsAux st rest (i + 1)).map fun l => (day, c) :: l

/-- The `daily_counts` field of `get_summary`. -/
def daily_counts (st : GenState) : Option (List (String × Nat)) :=
  dailyCountsAux st DAYS 0

/-! ## Duration bookkeeping -/

/-- Realized duration of a schedule cell (`OFF` contributes nothing). -/
def cellHours : Cell → Int
  | Cell.off => 0
  | Cell.mk s e => calcHours s e

/-- Sum of realized durations over a staff member's week. -/
def rowSum (row : List Cell) : Int := (row.map cellHours).sum

/-! ## The step relation: every mutation performed by the planner is one of
these two primitive operations, with the side conditions that hold at every
call site of the source. -/

/-- The staff member registered under `n` carries the overnight-specialist flag. -/
def isSpecialistIn (st : GenState) (n : String) : Prop :=
  ∃ m, dget st.staff n = some m ∧ m.is_overnight_specialist = true

inductive GStep : GenState → GenState → Prop
  | assign (st st2 : GenState) (n : String) (d : Nat) (t : String) (b : Bool)
      (h : assignShift st n d t = some (b, st2))
      (hday : d ≠ 0 ∨ n ∉ st.previous_sunday_workers ∨ isSpecialistIn st n)
      (hov : ∀ s e hrs, SHIFTS t = some (s, e, hrs) → s = "8:00 PM" →
        isSpecialistIn st n ∨ n = "DENTON" ∨ n = "ORVILLE" ∨ n = "ROMONE") :
      GStep st st2
  | extend (st st2 : GenState) (n : String) (d : Nat) (x : Int) (b : Bool)
      (h : extendShift st n d x = some (b, st2))
      (hlt : ∀ hh, dget st.hours n = some hh → hh < 40) :
      GStep st st2

def Reach : GenState → GenState → Prop := Relation.ReflTransGen GStep

/-! ## Invariants preserved by every step -/

/-- No tracked weekly total exceeds the 48-hour hard cap. -/
def HoursLe48 (st : GenState) : Prop := ∀ n h, dget st.hours n = some h → h ≤ 48

/-- Every staff member in the rotation exclusion list who is not an overnight
specialist has an `OFF` anchor-day (Sunday) cell. -/
def SundayFree (st : GenState) : Prop :=
  ∀ n, n ∈ st.previous_sunday_workers →
    (∀ m, dget st.staff n = some m → m.is_overnight_specialist = false) →
    ∀ row, dget st.schedule n = some row → row.get? 0 = some Cell.off

/-- Every overnight-shaped cell belongs to the overnight specialist or one of
the three hardcoded names. -/
def OvernightOwners (st : GenState) : Prop :=
  ∀ n row d s e, dget st.schedule n = some row → row.get? d = some (Cell.mk s e) →
    s = "8:00 PM" → isSpecialistIn st n ∨ n = "DENTON" ∨ n = "ORVILLE" ∨ n = "ROMONE"

/-- Every non-OFF cell is the overnight shape or a catalog/extended day shape. -/
def CellsWF (st : GenState) : Prop :=
  ∀ n row d s e, dget st.schedule n = some row → row.get? d = some (Cell.mk s e) →
    (s = "8:00 PM" ∧ e = "6:00 AM") ∨
    ((s = "6:00 AM" ∨ s = "10:00 AM" ∨ s = "2:00 PM" ∨ s = "12:00 PM") ∧
     parseHour s < parseHour e ∧ parseHour e ≤ 21 ∧ e = fmtHour (parseHour e))

/-- The tracked running total equals the summed realized durations. -/
def HoursMatch (st : GenState) : Prop :=
  ∀ n h row, dget st.hours n = some h → dget st.schedule n = some row → h = rowSum row

/-! ## Well-formedness of the staff dictionary and initial-state facts -/

def WFStaff (st : GenState) : Prop :=
  (∀ p ∈ st.staff, p.2.name = p.1) ∧ (st.staff.map Prod.fst).Nodup

/-! ## Concrete rosters and evaluated runs -/

/-- A sub-roster containing exactly the staff hardwired into the phase logic
(generation crashes with `KeyError` when any of these is absent). -/
def MINROSTER : List StaffMember := [
  { name := "MELLISA", is_supervisor := true },
  { name := "LIYONIE", is_supervisor := true },
  { name := "RICHIE", is_supervisor := true, is_male := true },
  { name := "RICHARD", is_male := true, fixed_day_off := ["SUNDAY", "WEDNESDAY"],
    must_work := ["SATURDAY"] },
  { name := "DENTON", is_male := true },
  { name := "ORVILLE", is_male := true },
  { name := "ROMONE", is_male := true },
  { name := "DELON", is_male := true, is_overnight_specialist := true },
  { name := "SHARMA", is_auxiliary := true },
  { name := "SASH", is_auxiliary := true }
]

/-- The schedule grid produced by a `MINROSTER` run (exclusions that only name
`DELON` or `RICHIE` do not alter any assignment, so this grid is shared by the
runs below). -/
def MINSCHEDULE : List (String × List Cell) := [
  ("MELLISA", [Cell.mk "6:00 AM" "9:00 PM", Cell.mk "12:00 PM" "9:00 PM", Cell.off,
    Cell.mk "12:00 PM" "9:00 PM", Cell.mk "12:00 PM" "9:00 PM", Cell.off, Cell.off]),
  ("LIYONIE", [Cell.off, Cell.mk "6:00 AM" "4:00 PM", Cell.mk "6:00 AM" "4:00 PM",
    Cell.mk "6:00 AM" "4:00 PM", Cell.off, Cell.off, Cell.mk "6:00 AM" "4:00 PM"]),
  ("RICHIE", [Cell.off, Cell.off, Cell.mk "12:00 PM" "9:00 PM", Cell.mk "10:00 AM" "6:00 PM",
    Cell.mk "12:00 PM" "9:00 PM", Cell.mk "12:00 PM" "9:00 PM", Cell.mk "2:00 PM" "9:00 PM"]),
  ("RICHARD", [Cell.off, Cell.mk "12:00 PM" "9:00 PM", Cell.mk "2:00 PM" "9:00 PM", Cell.off,
    Cell.mk "12:00 PM" "9:00 PM", Cell.mk "2:00 PM" "9:00 PM", Cell.mk "12:00 PM" "9:00 PM"]),
  ("DENTON", [Cell.mk "6:00 AM" "9:00 PM", Cell.mk "10:00 AM" "6:00 PM", Cell.off,
    Cell.mk "2:00 PM" "9:00 PM", Cell.off, Cell.mk "8:00 PM" "6:00 AM", Cell.off]),
  ("ORVILLE", [Cell.mk "6:00 AM" "9:00 PM", Cell.mk "8:00 PM" "6:00 AM", Cell.off,
    Cell.mk "2:00 PM" "9:00 PM", Cell.off, Cell.mk "6:00 AM" "2:00 PM", Cell.off]),
  ("ROMONE", [Cell.mk "6:00 AM" "9:00 PM", Cell.mk "10:00 AM" "6:00 PM", Cell.off,
    Cell.mk "8:00 PM" "6:00 AM", Cell.off, Cell.mk "2:00 PM" "9:00 PM", Cell.off]),
  ("DELON", [Cell.mk "8:00 PM" "6:00 AM", Cell.off, Cell.mk "8:00 PM" "6:00 AM", Cell.off,
    Cell.mk "8:00 PM" "6:00 AM", Cell.off, Cell.mk "8:00 PM" "6:00 AM"]),
  ("SHARMA", [Cell.mk "6:00 AM" "9:00 PM", Cell.off, Cell.mk "6:00 AM" "3:00 PM", Cell.off,
    Cell.mk "6:00 AM" "2:00 PM", Cell.off, Cell.mk "6:00 AM" "2:00 PM"]),
  ("SASH", [Cell.off, Cell.mk "6:00 AM" "4:00 PM", Cell.mk "2:00 PM" "9:00 PM",
    Cell.mk "10:00 AM" "6:00 PM", Cell.mk "2:00 PM" "9:00 PM", Cell.mk "10:00 AM" "6:00 PM",
    Cell.off])
]

def MINHOURS : List (String × Int) := [
  ("MELLISA", 42), ("LIYONIE", 40), ("RICHIE", 42), ("RICHARD", 41), ("DENTON", 40),
  ("ORVILLE", 40), ("ROMONE", 40), ("DELON", 40), ("SHARMA", 40), ("SASH", 40)
]

def MINSTATE (prev : List String) : GenState :=
  { staff := buildDict MINROSTER (fun s => s),
    schedule := MINSCHEDULE,
    hours := MINHOURS,
    previous_sunday_workers := prev }

/-- A one-member state whose staff closed at 9:00 PM on the first day. -/
def WSTATE : GenState :=
  { staff := [("W", { name := "W" })],
    schedule := [("W", [Cell.mk "2:00 PM" "9:00 PM", Cell.off, Cell.off, Cell.off,
      Cell.off, Cell.off, Cell.off])],
    hours := [("W", 0)],
    previous_sunday_workers := [] }

/-- The roster used to refute claim C4: `MINROSTER` plus a second SASH entry
(differing in the `is_male` flag). -/
def DUPROSTER : List StaffMember :=
  MINROSTER ++ [{ name := "SASH", is_auxiliary := true, is_male := true }]

/-- The roster used to refute claim C5: `MINROSTER` plus ZARA, whose
`must_work` names MONDAY while her `fixed_day_off` also names MONDAY. -/
def ZROSTER : List StaffMember :=
  MINROSTER ++ [{ name := "ZARA", fixed_day_off := ["MONDAY"], must_work := ["MONDAY"] }]

/-- A one-member state at 39 of 40 hours with a single non-overnight shift
ending two hours before the 9:00 PM closing boundary. -/
def SC7 : GenState :=
  { staff := [("W", { name := "W" })],
    schedule := [("W", [Cell.off, Cell.mk "12:00 PM" "7:00 PM", Cell.off, Cell.off,
      Cell.off, Cell.off, Cell.off])],
    hours := [("W", 39)],
    previous_sunday_workers := [] }

/-- The state `SC7` after reconciliation: the shift is extended by exactly one
hour (to 8:00 PM) and no new shift is added, reaching 40. -/
def SC7E : GenState :=
  { staff := [("W", { name := "W" })],
    schedule := [("W", [Cell.off, Cell.mk "12:00 PM" "8:00 PM", Cell.off, Cell.off,
      Cell.off, Cell.off, Cell.off])],
    hours := [("W", 40)],
    previous_sunday_workers := [] }

/-! ## Association-list (Python dict) lemmas -/

theorem dget_dset_ne {α : Type} (d : List (String × α)) (k k' : String) (v : α)
    (h : k' ≠ k) : dget (dset d k v) k' = dget d k' := by
  induction d with
  | nil => rfl
  | cons p rest ih =>
    obtain ⟨k0, v0⟩ := p
    by_cases hk : k0 = k
    · subst hk
      have hne : ¬ (k0 = k') := fun hh => h (Eq.symm hh)
      simp [dset, dget, hne]
    · simp only [dset, if_neg hk, dget]
      by_cases hk2 : k0 = k'
      · simp [hk2]
      · simp [hk2, ih]

theorem dget_dset_self {α : Type} (d : List (String × α)) (k : String) (v : α) :
    dget (dset d k v) k = (dget d k).map (fun _ => v) := by
  induction d with
  | nil => rfl
  | cons p rest ih =>
    obtain ⟨k0, v0⟩ := p
    by_cases hk : k0 = k
    · subst hk
      simp [dset, dget]
    · simp [dset, dget, hk, ih]

theorem dset_keys {α : Type} (d : List (String × α)) (k : String) (v : α) :
    (dset d k v).map Prod.fst = d.map Prod.fst := by
  induction d with
  | nil => rfl
  | cons p rest ih =>
    obtain ⟨k0, v0⟩ := p
    by_cases hk : k0 = k
    · subst hk; simp [dset]
    · simp [dset, hk, ih]

theorem rowSum_set (row : List Cell) (i : Nat) (c c2 : Cell)
    (h : row.get? i = some c) :
    rowSum (row.set i c2) = rowSum row - cellHours c + cellHours c2 := by
  induction row generalizing i with
  | nil => simp [List.get?] at h
  | cons x xs ih =>
    cases i with
    | zero =>
      simp only [List.get?] at h
      injection h with h
      subst h
      simp [rowSum]
      ring
    | succ j =>
      simp only [List.get?] at h
      have := ih j h
      simp [rowSum, List.set] at this ⊢
      omega

theorem replicate_get? {α : Type} (n : Nat) (a : α) (d : Nat) (c : α)
    (h : (List.replicate n a).get? d = some c) : c = a := by
  induction n generalizing d with
  | zero => simp [List.replicate, List.get?] at h
  | succ m ih =>
    cases d with
    | zero =>
      simp [List.replicate, List.get?] at h
      exact h.symm
    | succ j =>
      simp only [List.replicate, List.get?] at h
      exact ih j h

theorem tBind_eq_some {r : Option (Bool × GenState)} {k : GenState → Option GenState}
    {st2 : GenState} (h : tBind r k = some st2) :
    ∃ b st1, r = some (b, st1) ∧ k st1 = some st2 := by
  unfold tBind at h
  rw [Option.bind_eq_some] at h
  obtain ⟨p, hp, hk⟩ := h
  exact ⟨p.1, p.2, by rw [hp], hk⟩

theorem sndSt_eq_some {r : Option (Bool × GenState)} {st2 : GenState}
    (h : sndSt r = some st2) : ∃ b, r = some (b, st2) := by
  unfold sndSt at h
  cases r with
  | none => simp at h
  | some p =>
    simp at h
    exact ⟨p.1, by rw [← h]⟩

/-! ## Characterizations of the primitive mutators -/

theorem assignShift_spec {st st2 : GenState} {n : String} {d : Nat} {t : String} {b : Bool}
    (h : assignShift st n d t = some (b, st2)) :
    (b = false ∧ st2 = st) ∨
    (b = true ∧ ∃ row start stop hrs h0,
      dget st.schedule n = some row ∧ row.get? d = some Cell.off ∧
      SHIFTS t = some (start, stop, hrs) ∧ dget st.hours n = some h0 ∧
      h0 + hrs ≤ 48 ∧
      st2 = { st with
        schedule := dset st.schedule n (row.set d (Cell.mk start stop)),
        hours := dset st.hours n (h0 + hrs) }) := by
  unfold assignShift at h
  rw [Option.bind_eq_some] at h
  obtain ⟨row, hrow, h⟩ := h
  rw [Option.bind_eq_some] at h
  obtain ⟨cur, hcur, h⟩ := h
  split at h
  · left
    injection h with h
    obtain ⟨h1, h2⟩ := Prod.mk.inj h
    exact ⟨h1.symm, h2.symm⟩
  · rename_i hoff
    rw [Option.bind_eq_some] at h
    obtain ⟨sdef, hsdef, h⟩ := h
    rw [Option.bind_eq_some] at h
    obtain ⟨co, _hco, h⟩ := h
    split at h
    · left
      injection h with h
      obtain ⟨h1, h2⟩ := Prod.mk.inj h
      exact ⟨h1.symm, h2.symm⟩
    · rw [Option.bind_eq_some] at h
      obtain ⟨h0, hh0, h⟩ := h
      split at h
      · left
        injection h with h
        obtain ⟨h1, h2⟩ := Prod.mk.inj h
        exact ⟨h1.symm, h2.symm⟩
      · right
        injection h with h
        obtain ⟨h1, h2⟩ := Prod.mk.inj h
        refine ⟨h1.symm, row, sdef.1, sdef.2.1, sdef.2.2, h0, hrow, ?_, ?_, hh0, by omega, h2.symm⟩
        · push_neg at hoff
          rw [hoff] at hcur
          exact hcur
        · rw [hsdef]

theorem extendShift_spec {st st2 : GenState} {n : String} {d : Nat} {x : Int} {b : Bool}
    (h : extendShift st n d x = some (b, st2)) :
    (b = false ∧ st2 = st) ∨
    (b = true ∧ ∃ row start stop h0,
      dget st.schedule n = some row ∧ row.get? d = some (Cell.mk start stop) ∧
      containsSub ("8:00 PM".data) start.data = false ∧
      parseHour stop < 21 ∧
      0 < min (min x (21 - (parseHour stop : Int))) 3 ∧
      dget st.hours n = some h0 ∧
      st2 = { st with
        schedule := dset st.schedule n (row.set d (Cell.mk start
          (fmtHour (((parseHour stop : Int) + min (min x (21 - (parseHour stop : Int))) 3).toNat)))),
        hours := dset st.hours n (h0 + min (min x (21 - (parseHour stop : Int))) 3) }) := by
  simp only [extendShift] at h
  rw [Option.bind_eq_some] at h
  obtain ⟨row, hrow, h⟩ := h
  rw [Option.bind_eq_some] at h
  obtain ⟨shift, hshift, h⟩ := h
  cases shift with
  | off =>
    left
    injection h with h
    obtain ⟨h1, h2⟩ := Prod.mk.inj h
    exact ⟨h1.symm, h2.symm⟩
  | mk start stop =>
    dsimp only at h
    split at h
    · left
      injection h with h
      obtain ⟨h1, h2⟩ := Prod.mk.inj h
      exact ⟨h1.symm, h2.symm⟩
    · rename_i hsub
      split at h
      · left
        injection h with h
        obtain ⟨h1, h2⟩ := Prod.mk.inj h
        exact ⟨h1.symm, h2.symm⟩
      · rename_i hend
        split at h
        · left
          injection h with h
          obtain ⟨h1, h2⟩ := Prod.mk.inj h
          exact ⟨h1.symm, h2.symm⟩
        · rename_i hpos
          rw [Option.bind_eq_some] at h
          obtain ⟨h0, hh0, h⟩ := h
          right
          injection h with h
          obtain ⟨h1, h2⟩ := Prod.mk.inj h
          refine ⟨h1.symm, row, start, stop, h0, hrow, hshift,
            by simpa using hsub, by omega, by omega, hh0, h2.symm⟩

theorem assignShift_false {st st2 : GenState} {n : String} {d : Nat} {t : String}
    (h : assignShift st n d t = some (false, st2)) : st2 = st := by
  rcases assignShift_spec h with ⟨_, h2⟩ | ⟨hb, _⟩
  · exact h2
  · exact absurd hb (by simp)

theorem extendShift_false {st st2 : GenState} {n : String} {d : Nat} {x : Int}
    (h : extendShift st n d x = some (false, st2)) : st2 = st := by
  rcases extendShift_spec h with ⟨_, h2⟩ | ⟨hb, _⟩
  · exact h2
  · exact absurd hb (by simp)

theorem assignShift_frame {st st2 : GenState} {n : String} {d : Nat} {t : String} {b : Bool}
    (h : assignShift st n d t = some (b, st2)) :
    st2.staff = st.staff ∧ st2.previous_sunday_workers = st.previous_sunday_workers := by
  rcases assignShift_spec h with ⟨_, h2⟩ | ⟨_, row, s, e, hrs, h0, _, _, _, _, _, h2⟩ <;>
    (subst h2; exact ⟨rfl, rfl⟩)

theorem extendShift_frame {st st2 : GenState} {n : String} {d : Nat} {x : Int} {b : Bool}
    (h : extendShift st n d x = some (b, st2)) :
    st2.staff = st.staff ∧ st2.previous_sunday_workers = st.previous_sunday_workers := by
  rcases extendShift_spec h with ⟨_, h2⟩ | ⟨_, row, s, e, h0, _, _, _, _, _, _, h2⟩ <;>
    (subst h2; exact ⟨rfl, rfl⟩)

theorem Reach.refl {st : GenState} : Reach st st := Relation.ReflTransGen.refl

theorem Reach.trans {a b c : GenState} (h1 : Reach a b) (h2 : Reach b c) : Reach a c :=
  Relation.ReflTransGen.trans h1 h2

theorem gstep_frame {a b : GenState} (h : GStep a b) :
    b.staff = a.staff ∧ b.previous_sunday_workers = a.previous_sunday_workers := by
  cases h with
  | assign n d t bb hh hday hov => exact assignShift_frame hh
  | extend n d x bb hh hlt => exact extendShift_frame hh

theorem reach_frame {a b : GenState} (h : Reach a b) :
    b.staff = a.staff ∧ b.previous_sunday_workers = a.previous_sunday_workers := by
  induction h with
  | refl => exact ⟨rfl, rfl⟩
  | tail _ hs ih =>
    have := gstep_frame hs
    exact ⟨this.1.trans ih.1, this.2.trans ih.2⟩

theorem reach_preserves {P : GenState → Prop}
    (hstep : ∀ a b, GStep a b → P a → P b) {a b : GenState}
    (h : Reach a b) (ha : P a) : P b := by
  induction h with
  | refl => exact ha
  | tail _ hs ih => exact hstep _ _ hs ih

/-! ## Reach helpers for the call sites -/

theorem reach_assign_plain {st st2 : GenState} {n : String} {d : Nat} {t : String} {b : Bool}
    {s0 e0 : String} {h0 : Int}
    (h : assignShift st n d t = some (b, st2)) (hd : d ≠ 0)
    (heq : SHIFTS t = some (s0, e0, h0)) (hne : s0 ≠ "8:00 PM") : Reach st st2 :=
  Relation.ReflTransGen.single (GStep.assign st st2 n d t b h (Or.inl hd)
    (fun s e hrs hS h8 => by
      rw [heq] at hS
      injection hS with hS
      obtain ⟨hs, _⟩ := Prod.mk.inj hS
      exact absurd (hs ▸ h8) hne))

theorem reach_assign_sun {st st2 : GenState} {n : String} {d : Nat} {t : String} {b : Bool}
    {s0 e0 : String} {h0 : Int}
    (h : assignShift st n d t = some (b, st2)) (hnp : n ∉ st.previous_sunday_workers)
    (heq : SHIFTS t = some (s0, e0, h0)) (hne : s0 ≠ "8:00 PM") : Reach st st2 :=
  Relation.ReflTransGen.single (GStep.assign st st2 n d t b h (Or.inr (Or.inl hnp))
    (fun s e hrs hS h8 => by
      rw [heq] at hS
      injection hS with hS
      obtain ⟨hs, _⟩ := Prod.mk.inj hS
      exact absurd (hs ▸ h8) hne))

theorem reach_assign_spec {st st2 : GenState} {n : String} {d : Nat} {t : String} {b : Bool}
    (h : assignShift st n d t = some (b, st2)) (hsp : isSpecialistIn st n) : Reach st st2 :=
  Relation.ReflTransGen.single (GStep.assign st st2 n d t b h (Or.inr (Or.inr hsp))
    (fun _ _ _ _ _ => Or.inl hsp))

theorem reach_assign_named {st st2 : GenState} {n : String} {d : Nat} {t : String} {b : Bool}
    (h : assignShift st n d t = some (b, st2)) (hd : d ≠ 0)
    (hn : n = "DENTON" ∨ n = "ORVILLE" ∨ n = "ROMONE") : Reach st st2 :=
  Relation.ReflTransGen.single (GStep.assign st st2 n d t b h (Or.inl hd)
    (fun _ _ _ _ _ => Or.inr hn))

theorem reach_extend {st st2 : GenState} {n : String} {d : Nat} {x : Int} {b : Bool}
    (h : extendShift st n d x = some (b, st2))
    (hlt : ∀ hh, dget st.hours n = some hh → hh < 40) : Reach st st2 :=
  Relation.ReflTransGen.single (GStep.extend st st2 n d x b h hlt)

/-! ## Shape facts about the shift catalog and the time arithmetic -/

theorem calc_of_le {s e : String} (h : parseHour s ≤ parseHour e) :
    calcHours s e = (parseHour e : Int) - parseHour s := by
  unfold calcHours
  rw [if_neg]
  simp only [not_lt]
  exact_mod_cast h

theorem calc_of_lt {s e : String} (h : parseHour e < parseHour s) :
    calcHours s e = (24 - (parseHour s : Int)) + parseHour e := by
  unfold calcHours
  rw [if_pos]
  exact_mod_cast h

theorem parseHour_fmtHour : ∀ n < 22, parseHour (fmtHour n) = n := by decide

theorem SHIFTS_shape {t s e : String} {hrs : Int} (h : SHIFTS t = some (s, e, hrs)) :
    calcHours s e = hrs ∧
    ((s = "8:00 PM" ∧ e = "6:00 AM") ∨
     ((s = "6:00 AM" ∨ s = "10:00 AM" ∨ s = "2:00 PM" ∨ s = "12:00 PM") ∧
      parseHour s < parseHour e ∧ parseHour e ≤ 21 ∧ e = fmtHour (parseHour e))) := by
  unfold SHIFTS at h
  repeat' split at h
  all_goals first
  | exact absurd h.symm (Option.some_ne_none _)
  | (injection h with h
     obtain ⟨h1, h23⟩ := Prod.mk.inj h
     obtain ⟨h2, h3⟩ := Prod.mk.inj h23
     subst h1
     subst h2
     subst h3
     exact (by decide))

theorem containsSub_8pm_self : containsSub ("8:00 PM".data) ("8:00 PM".data) = true := by
  decide

theorem gstep_hoursLe48 {a b : GenState} (h : GStep a b) (ha : HoursLe48 a) :
    HoursLe48 b := by
  cases h with
  | assign n d t bb hh hday hov =>
    rcases assignShift_spec hh with ⟨_, rfl⟩ |
      ⟨_, row, s, e, hrs, h0, hrow, hcell, hS, hh0, hcap, rfl⟩
    · exact ha
    · intro n2 v hv
      dsimp only at hv
      by_cases hn : n2 = n
      · subst hn
        rw [dget_dset_self, hh0] at hv
        simp only [Option.map_some'] at hv
        injection hv with hv
        omega
      · rw [dget_dset_ne _ _ _ _ hn] at hv
        exact ha n2 v hv
  | extend n d x bb hh hlt =>
    rcases extendShift_spec hh with ⟨_, rfl⟩ |
      ⟨_, row, s, e, h0, hrow, hcell, hsub, hend, hpos, hh0, rfl⟩
    · exact ha
    · intro n2 v hv
      dsimp only at hv
      by_cases hn : n2 = n
      · subst hn
        rw [dget_dset_self, hh0] at hv
        simp only [Option.map_some'] at hv
        injection hv with hv
        have h40 := hlt h0 hh0
        have hm3 : min (min x (21 - (parseHour e : Int))) 3 ≤ 3 := min_le_right _ _
        omega
      · rw [dget_dset_ne _ _ _ _ hn] at hv
        exact ha n2 v hv

theorem gstep_sundayFree {a b : GenState} (h : GStep a b) (ha : SundayFree a) :
    SundayFree b := by
  cases h with
  | assign n d t bb hh hday hov =>
    rcases assignShift_spec hh with ⟨_, rfl⟩ |
      ⟨_, row, s, e, hrs, h0, hrow, hcell, hS, hh0, hcap, rfl⟩
    · exact ha
    · intro n2 hmem hns row2 hrow2
      dsimp only at hmem hns hrow2 ⊢
      by_cases hn : n2 = n
      · subst hn
        rw [dget_dset_self, hrow] at hrow2
        simp only [Option.map_some'] at hrow2
        injection hrow2 with hrow2
        subst hrow2
        rcases hday with hd | hnp | hsp
        · rw [List.get?_set_ne _ _ hd]
          exact ha n2 hmem hns row hrow
        · exact absurd hmem hnp
        · obtain ⟨m, hm, hflag⟩ := hsp
          exact absurd hflag (by rw [hns m hm]; simp)
      · rw [dget_dset_ne _ _ _ _ hn] at hrow2
        exact ha n2 hmem hns row2 hrow2
  | extend n d x bb hh hlt =>
    rcases extendShift_spec hh with ⟨_, rfl⟩ |
      ⟨_, row, s, e, h0, hrow, hcell, hsub, hend, hpos, hh0, rfl⟩
    · exact ha
    · intro n2 hmem hns row2 hrow2
      dsimp only at hmem hns hrow2 ⊢
      by_cases hn : n2 = n
      · subst hn
        rw [dget_dset_self, hrow] at hrow2
        simp only [Option.map_some'] at hrow2
        injection hrow2 with hrow2
        subst hrow2
        have hoff := ha n2 hmem hns row hrow
        by_cases hd : d = 0
        · subst hd
          rw [hoff] at hcell
          exact absurd hcell (by simp)
        · rw [List.get?_set_ne _ _ hd]
          exact hoff
      · rw [dget_dset_ne _ _ _ _ hn] at hrow2
        exact ha n2 hmem hns row2 hrow2

theorem get?_set_self {α : Type} (l : List α) (i : Nat) (a x : α)
    (h : l.get? i = some x) : (l.set i a).get? i = some a := by
  induction l generalizing i with
  | nil => simp [List.get?] at h
  | cons y ys ih =>
    cases i with
    | zero => rfl
    | succ j => exact ih j h

theorem gstep_overnightOwners {a b : GenState} (h : GStep a b) (ha : OvernightOwners a) :
    OvernightOwners b := by
  cases h with
  | assign n d t bb hh hday hov =>
    rcases assignShift_spec hh with ⟨_, rfl⟩ |
      ⟨_, row, s, e, hrs, h0, hrow, hcell, hS, hh0, hcap, rfl⟩
    · exact ha
    · intro n2 row2 d2 s2 e2 hrow2 hcell2 h8
      dsimp only at hrow2 ⊢
      by_cases hn : n2 = n
      · subst hn
        rw [dget_dset_self, hrow] at hrow2
        simp only [Option.map_some'] at hrow2
        injection hrow2 with hrow2
        subst hrow2
        by_cases hd : d = d2
        · subst hd
          rw [get?_set_self _ _ _ _ hcell] at hcell2
          injection hcell2 with hcell2
          injection hcell2 with hs2 he2
          exact hov s2 e2 hrs (by rw [hS, hs2, he2]) h8
        · rw [List.get?_set_ne _ _ hd] at hcell2
          exact ha n2 row d2 s2 e2 hrow hcell2 h8
      · rw [dget_dset_ne _ _ _ _ hn] at hrow2
        exact ha n2 row2 d2 s2 e2 hrow2 hcell2 h8
  | extend n d x bb hh hlt =>
    rcases extendShift_spec hh with ⟨_, rfl⟩ |
      ⟨_, row, s, e, h0, hrow, hcell, hsub, hend, hpos, hh0, rfl⟩
    · exact ha
    · intro n2 row2 d2 s2 e2 hrow2 hcell2 h8
      dsimp only at hrow2 ⊢
      by_cases hn : n2 = n
      · subst hn
        rw [dget_dset_self, hrow] at hrow2
        simp only [Option.map_some'] at hrow2
        injection hrow2 with hrow2
        subst hrow2
        by_cases hd : d = d2
        · subst hd
          rw [get?_set_self _ _ _ _ hcell] at hcell2
          injection hcell2 with hcell2
          injection hcell2 with hs2 he2
          exact ha n2 row d s2 e hrow (by rw [hcell, hs2]) h8
        · rw [List.get?_set_ne _ _ hd] at hcell2
          exact ha n2 row d2 s2 e2 hrow hcell2 h8
      · rw [dget_dset_ne _ _ _ _ hn] at hrow2
        exact ha n2 row2 d2 s2 e2 hrow2 hcell2 h8

theorem assignShift_WQ {a b : GenState} {n : String} {d : Nat} {t : String} {bb : Bool}
    (hh : assignShift a n d t = some (bb, b))
    (ha : CellsWF a ∧ HoursMatch a) : CellsWF b ∧ HoursMatch b := by
  obtain ⟨haW, haQ⟩ := ha

  rcases assignShift_spec hh with ⟨_, rfl⟩ |
    ⟨_, row, s, e, hrs, h0, hrow, hcell, hS, hh0, hcap, rfl⟩
  · exact ⟨haW, haQ⟩
  · obtain ⟨hcalc, hshape⟩ := SHIFTS_shape hS
    constructor
    · intro n2 row2 d2 s2 e2 hrow2 hcell2
      dsimp only at hrow2
      by_cases hn : n2 = n
      · subst hn
        rw [dget_dset_self, hrow] at hrow2
        simp only [Option.map_some'] at hrow2
        injection hrow2 with hrow2
        subst hrow2
        by_cases hd : d = d2
        · subst hd
          rw [get?_set_self _ _ _ _ hcell] at hcell2
          injection hcell2 with hcell2
          injection hcell2 with hs2 he2
          subst hs2
          subst he2
          exact hshape
        · rw [List.get?_set_ne _ _ hd] at hcell2
          exact haW n2 row d2 s2 e2 hrow hcell2
      · rw [dget_dset_ne _ _ _ _ hn] at hrow2
        exact haW n2 row2 d2 s2 e2 hrow2 hcell2
    · intro n2 v row2 hv hrow2
      dsimp only at hv hrow2
      by_cases hn : n2 = n
      · subst hn
        rw [dget_dset_self, hh0] at hv
        simp only [Option.map_some'] at hv
        injection hv with hv
        rw [dget_dset_self, hrow] at hrow2
        simp only [Option.map_some'] at hrow2
        injection hrow2 with hrow2
        subst hrow2
        rw [rowSum_set row d Cell.off (Cell.mk s e) hcell]
        have hq := haQ n2 h0 row hh0 hrow
        simp only [cellHours, hcalc]
        omega
      · rw [dget_dset_ne _ _ _ _ hn] at hv
        rw [dget_dset_ne _ _ _ _ hn] at hrow2
        exact haQ n2 v row2 hv hrow2

theorem extendShift_WQ {a b : GenState} {n : String} {d : Nat} {x : Int} {bb : Bool}
    (hh : extendShift a n d x = some (bb, b))
    (ha : CellsWF a ∧ HoursMatch a) : CellsWF b ∧ HoursMatch b := by
  obtain ⟨haW, haQ⟩ := ha

  rcases extendShift_spec hh with ⟨_, rfl⟩ |
    ⟨_, row, s, e, h0, hrow, hcell, hsub, hend, hpos, hh0, rfl⟩
  · exact ⟨haW, haQ⟩
  · -- facts about the old and new cell
    have hWF := haW n row d s e hrow hcell
    have hne8 : ¬ (s = "8:00 PM" ∧ e = "6:00 AM") := by
      rintro ⟨rfl, _⟩
      rw [containsSub_8pm_self] at hsub
      exact absurd hsub (by simp)
    have hshape := hWF.resolve_left hne8
    obtain ⟨hs4, hlt_se, _hle21, _hfmt⟩ := hshape
    set pa : Int := min (min x (21 - (parseHour e : Int))) 3 with hpa
    have hpa_le : pa ≤ 21 - (parseHour e : Int) :=
      le_trans (min_le_left _ _) (min_le_right _ _)
    have hnn : (0 : Int) ≤ (parseHour e : Int) + pa := by positivity
    have hne_nat : (((parseHour e : Int) + pa).toNat : Int) = (parseHour e : Int) + pa :=
      Int.toNat_of_nonneg hnn
    have hle22 : ((parseHour e : Int) + pa).toNat < 22 := by omega
    have hparse_new : parseHour (fmtHour ((parseHour e : Int) + pa).toNat) =
        ((parseHour e : Int) + pa).toNat :=
      parseHour_fmtHour _ hle22
    have hlt_new : parseHour s < parseHour (fmtHour ((parseHour e : Int) + pa).toNat) := by
      rw [hparse_new]
      omega
    constructor
    · intro n2 row2 d2 s2 e2 hrow2 hcell2
      dsimp only at hrow2
      by_cases hn : n2 = n
      · subst hn
        rw [dget_dset_self, hrow] at hrow2
        simp only [Option.map_some'] at hrow2
        injection hrow2 with hrow2
        subst hrow2
        by_cases hd : d = d2
        · subst hd
          rw [get?_set_self _ _ _ _ hcell] at hcell2
          injection hcell2 with hcell2
          injection hcell2 with hs2 he2
          subst hs2
          subst he2
          right
          refine ⟨hs4, hlt_new, ?_, ?_⟩
          · rw [hparse_new]; omega
          · rw [hparse_new]
        · rw [List.get?_set_ne _ _ hd] at hcell2
          exact haW n2 row d2 s2 e2 hrow hcell2
      · rw [dget_dset_ne _ _ _ _ hn] at hrow2
        exact haW n2 row2 d2 s2 e2 hrow2 hcell2
    · intro n2 v row2 hv hrow2
      dsimp only at hv hrow2
      by_cases hn : n2 = n
      · subst hn
        rw [dget_dset_self, hh0] at hv
        simp only [Option.map_some'] at hv
        injection hv with hv
        rw [dget_dset_self, hrow] at hrow2
        simp only [Option.map_some'] at hrow2
        injection hrow2 with hrow2
        subst hrow2
        rw [rowSum_set row d (Cell.mk s e) _ hcell]
        have hq := haQ n2 h0 row hh0 hrow
        have hold : cellHours (Cell.mk s e) = (parseHour e : Int) - parseHour s := by
          simp only [cellHours]
          exact calc_of_le (le_of_lt hlt_se)
        have hnew : cellHours (Cell.mk s (fmtHour ((parseHour e : Int) + pa).toNat)) =
            (((parseHour e : Int) + pa).toNat : Int) - parseHour s := by
          simp only [cellHours]
          rw [calc_of_le (le_of_lt hlt_new), hparse_new]
        rw [hold, hnew]
        omega
      · rw [dget_dset_ne _ _ _ _ hn] at hv
        rw [dget_dset_ne _ _ _ _ hn] at hrow2
        exact haQ n2 v row2 hv hrow2

theorem gstep_cellsWF_hoursMatch {a b : GenState} (h : GStep a b)
    (ha : CellsWF a ∧ HoursMatch a) : CellsWF b ∧ HoursMatch b := by
  cases h with
  | assign n d t bb hh hday hov => exact assignShift_WQ hh ha
  | extend n d x bb hh hlt => exact extendShift_WQ hh ha

theorem dget_of_mem_nodup {α : Type} {l : List (String × α)} {k : String} {v : α}
    (hnd : (l.map Prod.fst).Nodup) (hmem : (k, v) ∈ l) : dget l k = some v := by
  induction l with
  | nil => simp at hmem
  | cons p rest ih =>
    obtain ⟨k0, v0⟩ := p
    simp only [List.map, List.nodup_cons] at hnd
    rcases List.mem_cons.mp hmem with heq | htail
    · injection heq with h1 h2
      subst h1; subst h2
      simp [dget]
    · have hk : k0 ≠ k := by
        intro hk
        subst hk
        exact hnd.1 (List.mem_map.mpr ⟨(k0, v), htail, rfl⟩)
      simp only [dget, if_neg hk]
      exact ih hnd.2 htail

theorem gstep_wfStaff {a b : GenState} (h : GStep a b) (ha : WFStaff a) : WFStaff b := by
  have := gstep_frame h
  unfold WFStaff
  rw [this.1]
  exact ha

theorem reach_wfStaff {a b : GenState} (h : Reach a b) (ha : WFStaff a) : WFStaff b := by
  have := reach_frame h
  unfold WFStaff
  rw [this.1]
  exact ha

theorem specialist_of_member {st : GenState} {n : String} (hwf : WFStaff st)
    (hmem : n ∈ getStaffByRole st "overnight_specialist") : isSpecialistIn st n := by
  rw [show getStaffByRole st "overnight_specialist" =
    (st.staff.filter (fun p => p.2.is_overnight_specialist)).map (fun p => p.2.name)
    from rfl] at hmem
  obtain ⟨p, hp, hname⟩ := List.mem_map.mp hmem
  have hpmem := (List.mem_filter.mp hp).1
  have hflag := (List.mem_filter.mp hp).2
  have hkey : p.1 = n := by rw [← hwf.1 p hpmem, hname]
  refine ⟨p.2, ?_, by simpa using hflag⟩
  rw [← hkey]
  exact dget_of_mem_nodup hwf.2 (by
    obtain ⟨p1, p2⟩ := p
    exact hpmem)

theorem dictInsert_keys_sub {α : Type} (d : List (String × α)) (k x : String) (v : α)
    (h : x ∈ (dictInsert d k v).map Prod.fst) : x ∈ d.map Prod.fst ∨ x = k := by
  induction d with
  | nil => right; simpa [dictInsert] using h
  | cons p rest ih =>
    obtain ⟨k0, v0⟩ := p
    simp only [dictInsert] at h
    by_cases hk : k0 = k
    · rw [if_pos hk] at h
      simp only [List.map, List.mem_cons] at h
      rcases h with h | h
      · right; exact h
      · left; subst hk; simp [h]
    · rw [if_neg hk] at h
      simp only [List.map, List.mem_cons] at h
      rcases h with h | h
      · left; simp [h]
      · rcases ih h with h2 | h2
        · left; simp [List.mem_cons]; right; simpa using h2
        · right; exact h2

theorem dictInsert_keys_nodup {α : Type} (d : List (String × α))
    (hd : (d.map Prod.fst).Nodup) (k : String) (v : α) :
    ((dictInsert d k v).map Prod.fst).Nodup := by
  induction d with
  | nil => simp [dictInsert]
  | cons p rest ih =>
    obtain ⟨k0, v0⟩ := p
    simp only [List.map, List.nodup_cons] at hd
    simp only [dictInsert]
    by_cases hk : k0 = k
    · rw [if_pos hk]
      subst hk
      simp only [List.map, List.nodup_cons]
      exact hd
    · rw [if_neg hk]
      simp only [List.map, List.nodup_cons]
      constructor
      · intro hmem
        rcases dictInsert_keys_sub rest k k0 v hmem with h2 | h2
        · exact hd.1 h2
        · exact hk h2
      · exact ih hd.2

theorem dictInsert_pairs {α : Type} {P : String → α → Prop} (d : List (String × α))
    (hd : ∀ p ∈ d, P p.1 p.2) (k : String) (v : α) (hkv : P k v) :
    ∀ p ∈ dictInsert d k v, P p.1 p.2 := by
  induction d with
  | nil => simpa [dictInsert] using hkv
  | cons q rest ih =>
    obtain ⟨k0, v0⟩ := q
    intro p hp
    simp only [dictInsert] at hp
    by_cases hk : k0 = k
    · rw [if_pos hk] at hp
      rcases List.mem_cons.mp hp with h | h
      · subst h; exact hkv
      · exact hd p (List.mem_cons.mpr (Or.inr h))
    · rw [if_neg hk] at hp
      rcases List.mem_cons.mp hp with h | h
      · subst h; exact hd (k0, v0) (List.mem_cons.mpr (Or.inl rfl))
      · exact ih (fun q hq => hd q (List.mem_cons.mpr (Or.inr hq))) p h

theorem dget_mem {α : Type} {d : List (String × α)} {k : String} {v : α}
    (h : dget d k = some v) : (k, v) ∈ d := by
  induction d with
  | nil => exact absurd h.symm (Option.some_ne_none _)
  | cons p rest ih =>
    obtain ⟨k0, v0⟩ := p
    simp only [dget] at h
    split at h
    · injection h with h
      rename_i hk
      subst hk
      subst h
      exact List.mem_cons.mpr (Or.inl rfl)
    · exact List.mem_cons.mpr (Or.inr (ih h))

theorem dictInsert_mem_sub {α : Type} (d : List (String × α)) (k : String) (v : α) :
    ∀ p ∈ dictInsert d k v, p ∈ d ∨ p = (k, v) := by
  induction d with
  | nil =>
    intro p hp
    right
    simpa [dictInsert] using hp
  | cons q rest ih =>
    obtain ⟨k0, v0⟩ := q
    intro p hp
    simp only [dictInsert] at hp
    by_cases hk : k0 = k
    · rw [if_pos hk] at hp
      rcases List.mem_cons.mp hp with h | h
      · right; exact h
      · left; exact List.mem_cons.mpr (Or.inr h)
    · rw [if_neg hk] at hp
      rcases List.mem_cons.mp hp with h | h
      · left; exact List.mem_cons.mpr (Or.inl h)
      · rcases ih p h with h2 | h2
        · left; exact List.mem_cons.mpr (Or.inr h2)
        · right; exact h2

theorem foldl_dictInsert_mem {α : Type} (f : StaffMember → α) :
    ∀ (l : List StaffMember) (d : List (String × α)) (p : String × α),
      p ∈ l.foldl (fun d s => dictInsert d s.name (f s)) d →
      p ∈ d ∨ ∃ s ∈ l, p = (s.name, f s) := by
  intro l
  induction l with
  | nil =>
    intro d p hp
    exact Or.inl hp
  | cons s rest ih =>
    intro d p hp
    simp only [List.foldl] at hp
    rcases ih (dictInsert d s.name (f s)) p hp with h | h
    · rcases dictInsert_mem_sub d s.name (f s) p h with h2 | h2
      · exact Or.inl h2
      · exact Or.inr ⟨s, List.mem_cons.mpr (Or.inl rfl), h2⟩
    · obtain ⟨s2, hs2, he⟩ := h
      exact Or.inr ⟨s2, List.mem_cons.mpr (Or.inr hs2), he⟩

theorem buildDict_mem {α : Type} (f : StaffMember → α) (roster : List StaffMember)
    (p : String × α) (hp : p ∈ buildDict roster f) : ∃ s ∈ roster, p = (s.name, f s) := by
  rcases foldl_dictInsert_mem f roster [] p hp with h | h
  · simp at h
  · exact h

theorem foldl_dictInsert_nodup {α : Type} (f : StaffMember → α) :
    ∀ (l : List StaffMember) (d : List (String × α)),
      (d.map Prod.fst).Nodup →
      ((l.foldl (fun d s => dictInsert d s.name (f s)) d).map Prod.fst).Nodup := by
  intro l
  induction l with
  | nil => intro d hd; exact hd
  | cons s rest ih =>
    intro d hd
    simp only [List.foldl]
    exact ih _ (dictInsert_keys_nodup d hd s.name (f s))

theorem buildDict_nodup {α : Type} (f : StaffMember → α) (roster : List StaffMember) :
    ((buildDict roster f).map Prod.fst).Nodup :=
  foldl_dictInsert_nodup f roster [] (by simp)

theorem initState_wfStaff (roster : List StaffMember) (prev : List String) :
    WFStaff (initState roster prev) := by
  constructor
  · intro p hp
    obtain ⟨s, _, he⟩ := buildDict_mem _ _ p hp
    subst he
    rfl
  · exact buildDict_nodup _ _

theorem initState_hours (roster : List StaffMember) (prev : List String)
    {n : String} {v : Int} (h : dget (initState roster prev).hours n = some v) : v = 0 := by
  obtain ⟨s, _, he⟩ := buildDict_mem _ _ (n, v) (dget_mem h)
  exact (Prod.mk.inj he).2

theorem initState_schedule (roster : List StaffMember) (prev : List String)
    {n : String} {row : List Cell} (h : dget (initState roster prev).schedule n = some row) :
    row = List.replicate 7 Cell.off := by
  obtain ⟨s, _, he⟩ := buildDict_mem _ _ (n, row) (dget_mem h)
  exact (Prod.mk.inj he).2

/-! ## Reaching through each planner phase -/

theorem filterO_mem {p : String → Option Bool} {l l2 : List String}
    (h : filterO p l = some l2) : ∀ x ∈ l2, p x = some true := by
  induction l generalizing l2 with
  | nil =>
    intro x hx
    simp only [filterO] at h
    injection h with h
    subst h
    simp at hx
  | cons y ys ih =>
    intro x hx
    simp only [filterO] at h
    rw [Option.bind_eq_some] at h
    obtain ⟨b, hb, h⟩ := h
    rw [Option.map_eq_some'] at h
    obtain ⟨rest, hrest, hl2⟩ := h
    cases b with
    | true =>
      subst hl2
      rcases List.mem_cons.mp hx with hh | hh
      · subst hh; exact hb
      · exact ih hrest x hh
    | false =>
      subst hl2
      exact ih hrest x hx

theorem canWork_sunday_not_prev {st : GenState} {n : String}
    (h : canWorkDay st n "SUNDAY" = some true) : n ∉ st.previous_sunday_workers := by
  unfold canWorkDay at h
  rw [Option.bind_eq_some] at h
  obtain ⟨m, hm, h⟩ := h
  split at h
  · simp at h
  · split at h
    · simp at h
    · rename_i hcond
      intro hmem
      exact hcond ⟨rfl, hmem⟩

theorem regular_filter_not_prev {st : GenState} {n : String}
    (h : (canWorkDay st n "SUNDAY").map (fun b => b && n != "RICHARD") = some true) :
    n ∉ st.previous_sunday_workers := by
  rw [Option.map_eq_some'] at h
  obtain ⟨b0, hb0, hb⟩ := h
  cases b0 with
  | false => simp at hb
  | true => exact canWork_sunday_not_prev hb0

theorem reach_of_pair_eq {st st2 : GenState} {b0 b : Bool}
    (h : (some (b0, st) : Option (Bool × GenState)) = some (b, st2)) : Reach st st2 := by
  injection h with h
  obtain ⟨_, h2⟩ := Prod.mk.inj h
  rw [← h2]
  exact Reach.refl

theorem sundayCrewLoop_reach :
    ∀ (names : List String) (st : GenState) (assigned : Nat) (st2 : GenState),
      (∀ n ∈ names, n ∉ st.previous_sunday_workers) →
      sundayCrewLoop st assigned names = some st2 → Reach st st2 := by
  intro names
  induction names with
  | nil =>
    intro st a st2 _ h
    simp only [sundayCrewLoop] at h
    injection h with h
    rw [← h]
    exact Reach.refl
  | cons n rest ih =>
    intro st a st2 hmem h
    simp only [sundayCrewLoop] at h
    split at h
    · exact ih st a st2 (fun x hx => hmem x (List.mem_cons.mpr (Or.inr hx))) h
    · rw [Option.bind_eq_some] at h
      obtain ⟨p, hp, hrec⟩ := h
      obtain ⟨b1, st1⟩ := p
      have r1 : Reach st st1 :=
        reach_assign_sun hp (hmem n (List.mem_cons.mpr (Or.inl rfl))) rfl (by decide)
      have hprev : st1.previous_sunday_workers = st.previous_sunday_workers :=
        (assignShift_frame hp).2
      exact r1.trans (ih st1 _ st2
        (fun x hx => by rw [hprev]; exact hmem x (List.mem_cons.mpr (Or.inr hx))) hrec)

theorem assignSunday_reach {st st2 : GenState} (h : assignSunday st = some st2)
    (hwf : WFStaff st) : Reach st st2 := by
  unfold assignSunday at h
  rw [Option.bind_eq_some] at h
  obtain ⟨sups, hsups, h⟩ := h
  rw [Option.bind_eq_some] at h
  obtain ⟨st1, hst1, h⟩ := h
  have r1 : Reach st st1 := by
    cases sups with
    | nil =>
      injection hst1 with hst1
      rw [← hst1]
      exact Reach.refl
    | cons s tl =>
      obtain ⟨b, hb⟩ := sndSt_eq_some hst1
      exact reach_assign_sun hb
        (canWork_sunday_not_prev (filterO_mem hsups s (List.mem_cons.mpr (Or.inl rfl))))
        rfl (by decide)
  rw [Option.bind_eq_some] at h
  obtain ⟨auxs, hauxs, h⟩ := h
  rw [Option.bind_eq_some] at h
  obtain ⟨stB, hstB, h⟩ := h
  have r2 : Reach st1 stB := by
    cases auxs with
    | nil =>
      injection hstB with hstB
      rw [← hstB]
      exact Reach.refl
    | cons s tl =>
      obtain ⟨b, hb⟩ := sndSt_eq_some hstB
      exact reach_assign_sun hb
        (canWork_sunday_not_prev (filterO_mem hauxs s (List.mem_cons.mpr (Or.inl rfl))))
        rfl (by decide)
  rw [Option.bind_eq_some] at h
  obtain ⟨regs, hregs, h⟩ := h
  rw [Option.bind_eq_some] at h
  obtain ⟨stC, hstC, h⟩ := h
  have r3 : Reach stB stC :=
    sundayCrewLoop_reach regs stB 0 stC
      (fun x hx => regular_filter_not_prev (filterO_mem hregs x hx)) hstC
  have r4 : Reach stC st2 := by
    cases hrole : getStaffByRole stC "overnight_specialist" with
    | nil =>
      rw [hrole] at h
      injection h with h
      rw [← h]
      exact Reach.refl
    | cons sp tl =>
      rw [hrole] at h
      obtain ⟨b, hb⟩ := sndSt_eq_some h
      have hwfC : WFStaff stC :=
        reach_wfStaff (r1.trans (r2.trans r3)) hwf
      exact reach_assign_spec hb
        (specialist_of_member hwfC (by rw [hrole]; exact List.mem_cons.mpr (Or.inl rfl)))
  exact ((r1.trans r2).trans r3).trans r4

theorem specNightsLoop_reach :
    ∀ (ds : List Nat) (st : GenState) (sp : String) (st2 : GenState),
      isSpecialistIn st sp → specNightsLoop st sp ds = some st2 → Reach st st2 := by
  intro ds
  induction ds with
  | nil =>
    intro st sp st2 _ h
    simp only [specNightsLoop] at h
    injection h with h
    rw [← h]
    exact Reach.refl
  | cons d rest ih =>
    intro st sp st2 hsp h
    simp only [specNightsLoop] at h
    rw [Option.bind_eq_some] at h
    obtain ⟨row, hrow, h⟩ := h
    rw [Option.bind_eq_some] at h
    obtain ⟨c, hc, h⟩ := h
    split at h
    · obtain ⟨b1, st1, hb, hrec⟩ := tBind_eq_some h
      have r1 : Reach st st1 := reach_assign_spec hb hsp
      have hstaff : st1.staff = st.staff := (assignShift_frame hb).1
      have hsp1 : isSpecialistIn st1 sp := by
        obtain ⟨m, hm, hf⟩ := hsp
        exact ⟨m, by rw [hstaff]; exact hm, hf⟩
      exact r1.trans (ih st1 sp st2 hsp1 hrec)
    · exact ih st sp st2 hsp h

theorem assignOvernight_reach {st st2 : GenState} (h : assignOvernight st = some st2)
    (hwf : WFStaff st) : Reach st st2 := by
  unfold assignOvernight at h
  rw [Option.bind_eq_some] at h
  obtain ⟨st1, hst1, h⟩ := h
  have r1 : Reach st st1 := by
    cases hrole : getStaffByRole st "overnight_specialist" with
    | nil =>
      rw [hrole] at hst1
      injection hst1 with hst1
      rw [← hst1]
      exact Reach.refl
    | cons sp tl =>
      rw [hrole] at hst1
      exact specNightsLoop_reach [0, 2, 4, 6] st sp st1
        (specialist_of_member hwf (by rw [hrole]; exact List.mem_cons.mpr (Or.inl rfl))) hst1
  obtain ⟨b1, stA, hb1, h⟩ := tBind_eq_some h
  obtain ⟨b2, stB, hb2, h⟩ := tBind_eq_some h
  obtain ⟨b3, hb3⟩ := sndSt_eq_some h
  have r2 : Reach st1 stA := reach_assign_named hb1 (by decide) (Or.inl rfl)
  have r3 : Reach stA stB := reach_assign_named hb2 (by decide) (Or.inr (Or.inl rfl))
  have r4 : Reach stB st2 := reach_assign_named hb3 (by decide) (Or.inr (Or.inr rfl))
  exact ((r1.trans r2).trans r3).trans r4

theorem assignRichard_reach {st st2 : GenState} (h : assignRichard st = some st2) :
    Reach st st2 := by
  unfold assignRichard at h
  obtain ⟨b1, s1, h1, h⟩ := tBind_eq_some h
  obtain ⟨b2, s2, h2, h⟩ := tBind_eq_some h
  obtain ⟨b3, s3, h3, h⟩ := tBind_eq_some h
  obtain ⟨b4, s4, h4, h⟩ := tBind_eq_some h
  obtain ⟨b5, h5⟩ := sndSt_eq_some h
  exact ((((reach_assign_plain h1 (by decide) rfl (by decide)).trans
    (reach_assign_plain h2 (by decide) rfl (by decide))).trans
    (reach_assign_plain h3 (by decide) rfl (by decide))).trans
    (reach_assign_plain h4 (by decide) rfl (by decide))).trans
    (reach_assign_plain h5 (by decide) rfl (by decide))

theorem assignAuxiliary_reach {st st2 : GenState} (h : assignAuxiliary st = some st2) :
    Reach st st2 := by
  unfold assignAuxiliary at h
  rw [Option.bind_eq_some] at h
  obtain ⟨row, hrow, h⟩ := h
  rw [Option.bind_eq_some] at h
  obtain ⟨c0, hc0, h⟩ := h
  split at h <;>
  · obtain ⟨b1, s1, h1, h⟩ := tBind_eq_some h
    obtain ⟨b2, s2, h2, h⟩ := tBind_eq_some h
    obtain ⟨b3, s3, h3, h⟩ := tBind_eq_some h
    obtain ⟨b4, s4, h4, h⟩ := tBind_eq_some h
    obtain ⟨b5, s5, h5, h⟩ := tBind_eq_some h
    obtain ⟨b6, s6, h6, h⟩ := tBind_eq_some h
    obtain ⟨b7, s7, h7, h⟩ := tBind_eq_some h
    obtain ⟨b8, h8⟩ := sndSt_eq_some h
    exact (((((((reach_assign_plain h1 (by decide) rfl (by decide)).trans
      (reach_assign_plain h2 (by decide) rfl (by decide))).trans
      (reach_assign_plain h3 (by decide) rfl (by decide))).trans
      (reach_assign_plain h4 (by decide) rfl (by decide))).trans
      (reach_assign_plain h5 (by decide) rfl (by decide))).trans
      (reach_assign_plain h6 (by decide) rfl (by decide))).trans
      (reach_assign_plain h7 (by decide) rfl (by decide))).trans
      (reach_assign_plain h8 (by decide) rfl (by decide))

theorem assignSupervisors_reach {st st2 : GenState} (h : assignSupervisors st = some st2) :
    Reach st st2 := by
  unfold assignSupervisors at h
  rw [Option.bind_eq_some] at h
  obtain ⟨sun_sup, hss, h⟩ := h
  rw [Option.bind_eq_some] at h
  obtain ⟨st1, hst1, h⟩ := h
  have r1 : Reach st st1 := by
    split at hst1
    · obtain ⟨b1, s1, h1, hst1⟩ := tBind_eq_some hst1
      obtain ⟨b2, s2, h2, hst1⟩ := tBind_eq_some hst1
      obtain ⟨b3, h3⟩ := sndSt_eq_some hst1
      exact ((reach_assign_plain h1 (by decide) rfl (by decide)).trans
        (reach_assign_plain h2 (by decide) rfl (by decide))).trans
        (reach_assign_plain h3 (by decide) rfl (by decide))
    · injection hst1 with hst1
      rw [← hst1]
      exact Reach.refl
  obtain ⟨b1, s1, h1, h⟩ := tBind_eq_some h
  obtain ⟨b2, s2, h2, h⟩ := tBind_eq_some h
  obtain ⟨b3, s3, h3, h⟩ := tBind_eq_some h
  obtain ⟨b4, s4, h4, h⟩ := tBind_eq_some h
  obtain ⟨b5, s5, h5, h⟩ := tBind_eq_some h
  obtain ⟨b6, s6, h6, h⟩ := tBind_eq_some h
  obtain ⟨b7, s7, h7, h⟩ := tBind_eq_some h
  obtain ⟨b8, s8, h8, h⟩ := tBind_eq_some h
  obtain ⟨b9, s9, h9, h⟩ := tBind_eq_some h
  obtain ⟨b10, s10, h10, h⟩ := tBind_eq_some h
  obtain ⟨b11, s11, h11, h⟩ := tBind_eq_some h
  obtain ⟨b12, s12, h12, h⟩ := tBind_eq_some h
  obtain ⟨b13, s13, h13, h⟩ := tBind_eq_some h
  obtain ⟨b14, h14⟩ := sndSt_eq_some h
  exact r1.trans ((((((((((((((reach_assign_plain h1 (by decide) rfl (by decide)).trans
    (reach_assign_plain h2 (by decide) rfl (by decide))).trans
    (reach_assign_plain h3 (by decide) rfl (by decide))).trans
    (reach_assign_plain h4 (by decide) rfl (by decide))).trans
    (reach_assign_plain h5 (by decide) rfl (by decide))).trans
    (reach_assign_plain h6 (by decide) rfl (by decide))).trans
    (reach_assign_plain h7 (by decide) rfl (by decide))).trans
    (reach_assign_plain h8 (by decide) rfl (by decide))).trans
    (reach_assign_plain h9 (by decide) rfl (by decide))).trans
    (reach_assign_plain h10 (by decide) rfl (by decide))).trans
    (reach_assign_plain h11 (by decide) rfl (by decide))).trans
    (reach_assign_plain h12 (by decide) rfl (by decide))).trans
    (reach_assign_plain h13 (by decide) rfl (by decide))).trans
    (reach_assign_plain h14 (by decide) rfl (by decide)))

theorem tryAssign_reach {st st2 : GenState} {n : String} {d : Nat} {t : String} {b : Bool}
    {s0 e0 : String} {h0 : Int}
    (h : tryAssign st n d t = some (b, st2)) (hd : d ≠ 0)
    (heq : SHIFTS t = some (s0, e0, h0)) (hne : s0 ≠ "8:00 PM") : Reach st st2 := by
  unfold tryAssign at h
  rw [Option.bind_eq_some] at h
  obtain ⟨row, hrow, h⟩ := h
  rw [Option.bind_eq_some] at h
  obtain ⟨c, hc, h⟩ := h
  split at h
  · exact reach_of_pair_eq h
  · rw [Option.bind_eq_some] at h
    obtain ⟨day, hday, h⟩ := h
    rw [Option.bind_eq_some] at h
    obtain ⟨cw, hcw, h⟩ := h
    split at h
    · exact reach_of_pair_eq h
    · rw [Option.bind_eq_some] at h
      obtain ⟨sdef, hsdef, h⟩ := h
      split at h
      · rw [Option.bind_eq_some] at h
        obtain ⟨co, hco, h⟩ := h
        split at h
        · exact reach_assign_plain h hd rfl (by decide)
        · exact reach_assign_plain h hd heq hne
      · exact reach_assign_plain h hd heq hne

theorem bestDayLoop_mem {st : GenState} {name : String} :
    ∀ (ds : List Nat) (acc acc2 : Option Nat × Int),
      bestDayLoop st name ds acc = some acc2 →
      acc2.1 = acc.1 ∨ ∃ d ∈ ds, acc2.1 = some d := by
  intro ds
  induction ds with
  | nil =>
    intro acc acc2 h
    simp only [bestDayLoop] at h
    injection h with h
    rw [← h]
    exact Or.inl rfl
  | cons d rest ih =>
    intro acc acc2 h
    simp only [bestDayLoop] at h
    rw [Option.bind_eq_some] at h
    obtain ⟨row, hrow, h⟩ := h
    rw [Option.bind_eq_some] at h
    obtain ⟨c, hc, h⟩ := h
    split at h
    · rcases ih acc acc2 h with h2 | ⟨d2, hd2, he⟩
      · exact Or.inl h2
      · exact Or.inr ⟨d2, List.mem_cons.mpr (Or.inr hd2), he⟩
    · rw [Option.bind_eq_some] at h
      obtain ⟨day, hday, h⟩ := h
      rw [Option.bind_eq_some] at h
      obtain ⟨cw, hcw, h⟩ := h
      split at h
      · rcases ih acc acc2 h with h2 | ⟨d2, hd2, he⟩
        · exact Or.inl h2
        · exact Or.inr ⟨d2, List.mem_cons.mpr (Or.inr hd2), he⟩
      · rw [Option.bind_eq_some] at h
        obtain ⟨cnt, hcnt, h⟩ := h
        rw [Option.bind_eq_some] at h
        obtain ⟨target, htarget, h⟩ := h
        split at h
        · rcases ih _ acc2 h with h2 | ⟨d2, hd2, he⟩
          · exact Or.inr ⟨d, List.mem_cons.mpr (Or.inl rfl), h2⟩
          · exact Or.inr ⟨d2, List.mem_cons.mpr (Or.inr hd2), he⟩
        · rcases ih acc acc2 h with h2 | ⟨d2, hd2, he⟩
          · exact Or.inl h2
          · exact Or.inr ⟨d2, List.mem_cons.mpr (Or.inr hd2), he⟩

theorem fillRemainingGo_reach :
    ∀ (fuel : Nat) (st : GenState) (name : String) (st2 : GenState),
      fillRemainingGo fuel st name = some st2 → Reach st st2 := by
  intro fuel
  induction fuel with
  | zero =>
    intro st name st2 h
    simp only [fillRemainingGo] at h
    injection h with h
    rw [← h]
    exact Reach.refl
  | succ f ih =>
    intro st name st2 h
    simp only [fillRemainingGo] at h
    rw [Option.bind_eq_some] at h
    obtain ⟨hcur, hhcur, h⟩ := h
    split at h
    · injection h with h
      rw [← h]
      exact Reach.refl
    · rw [Option.bind_eq_some] at h
      obtain ⟨acc, hacc, h⟩ := h
      split at h
      · injection h with h
        rw [← h]
        exact Reach.refl
      · rename_i bd hbd
        rw [Option.bind_eq_some] at h
        obtain ⟨co, hco, h⟩ := h
        rw [Option.bind_eq_some] at h
        obtain ⟨p, hp, h⟩ := h
        obtain ⟨b1, st1⟩ := p
        have hbd0 : bd ≠ 0 := by
          rcases bestDayLoop_mem [1, 2, 3, 4, 5, 6] (none, -999) acc hacc with h2 | ⟨d2, hd2, he⟩
          · rw [hbd] at h2
            simp at h2
          · rw [hbd] at he
            injection he with he
            subst he
            fin_cases hd2 <;> decide
        have r1 : Reach st st1 := by
          split at hp
          · exact reach_assign_plain hp hbd0 rfl (by decide)
          · split at hp
            · exact reach_assign_plain hp hbd0 rfl (by decide)
            · split at hp
              · exact reach_assign_plain hp hbd0 rfl (by decide)
              · split at hp
                · exact reach_assign_plain hp hbd0 rfl (by decide)
                · split at hp
                  · exact reach_assign_plain hp hbd0 rfl (by decide)
                  · exact reach_of_pair_eq hp
        split at h
        · exact r1.trans (ih st1 name st2 h)
        · injection h with h
          rw [← h]
          exact r1

theorem fillRemaining_reach {st st2 : GenState} {name : String}
    (h : fillRemaining st name = some st2) : Reach st st2 :=
  fillRemainingGo_reach 10 st name st2 h

theorem sundayWorkersLoop_reach :
    ∀ (names : List String) (st : GenState) (i : Nat) (st2 : GenState),
      sundayWorkersLoop st i names = some st2 → Reach st st2 := by
  intro names
  induction names with
  | nil =>
    intro st i st2 h
    simp only [sundayWorkersLoop] at h
    injection h with h
    rw [← h]
    exact Reach.refl
  | cons n rest ih =>
    intro st i st2 h
    simp only [sundayWorkersLoop] at h
    rw [Option.bind_eq_some] at h
    obtain ⟨row, hrow, h⟩ := h
    rw [Option.bind_eq_some] at h
    obtain ⟨stP, hstep, h⟩ := h
    rw [Option.bind_eq_some] at h
    obtain ⟨stF, hfill, hrec⟩ := h
    have rstep : Reach st stP := by
      repeat' split at hstep
      all_goals first
      | (obtain ⟨b1, s1, h1, hstep⟩ := tBind_eq_some hstep
         obtain ⟨b2, s2, h2, hstep⟩ := tBind_eq_some hstep
         obtain ⟨b3, h3⟩ := sndSt_eq_some hstep
         exact ((tryAssign_reach h1 (by decide) rfl (by decide)).trans
           (tryAssign_reach h2 (by decide) rfl (by decide))).trans
           (tryAssign_reach h3 (by decide) rfl (by decide)))
      | (obtain ⟨b1, s1, h1, hstep⟩ := tBind_eq_some hstep
         obtain ⟨b2, h2⟩ := sndSt_eq_some hstep
         exact (tryAssign_reach h1 (by decide) rfl (by decide)).trans
           (tryAssign_reach h2 (by decide) rfl (by decide)))
      | (injection hstep with hstep
         rw [← hstep]
         exact Reach.refl)
    exact (rstep.trans (fillRemaining_reach hfill)).trans (ih stF (i + 1) st2 hrec)

theorem overnightMalesLoop_reach :
    ∀ (names : List String) (st : GenState) (st2 : GenState),
      overnightMalesLoop st names = some st2 → Reach st st2 := by
  intro names
  induction names with
  | nil =>
    intro st st2 h
    simp only [overnightMalesLoop] at h
    injection h with h
    rw [← h]
    exact Reach.refl
  | cons n rest ih =>
    intro st st2 h
    simp only [overnightMalesLoop] at h
    rw [Option.bind_eq_some] at h
    obtain ⟨row, hrow, h⟩ := h
    rw [Option.bind_eq_some] at h
    obtain ⟨c0, hc0, h⟩ := h
    split at h
    · exact ih st st2 h
    · split at h
      · simp at h
      · rw [Option.bind_eq_some] at h
        obtain ⟨stP, hstep, h⟩ := h
        rw [Option.bind_eq_some] at h
        obtain ⟨stF, hfill, hrec⟩ := h
        have rstep : Reach st stP := by
          repeat' split at hstep
          all_goals first
          | (obtain ⟨b1, s1, h1, hstep⟩ := tBind_eq_some hstep
             obtain ⟨b2, s2, h2, hstep⟩ := tBind_eq_some hstep
             obtain ⟨b3, h3⟩ := sndSt_eq_some hstep
             exact ((tryAssign_reach h1 (by decide) rfl (by decide)).trans
               (tryAssign_reach h2 (by decide) rfl (by decide))).trans
               (tryAssign_reach h3 (by decide) rfl (by decide)))
          | (obtain ⟨b1, s1, h1, hstep⟩ := tBind_eq_some hstep
             obtain ⟨b2, h2⟩ := sndSt_eq_some hstep
             exact (tryAssign_reach h1 (by decide) rfl (by decide)).trans
               (tryAssign_reach h2 (by decide) rfl (by decide)))
          | (injection hstep with hstep
             rw [← hstep]
             exact Reach.refl)
        exact (rstep.trans (fillRemaining_reach hfill)).trans (ih stF st2 hrec)

theorem nonSundayLoop_reach :
    ∀ (names : List String) (st : GenState) (i : Nat) (st2 : GenState),
      nonSundayLoop st i names = some st2 → Reach st st2 := by
  intro names
  induction names with
  | nil =>
    intro st i st2 h
    simp only [nonSundayLoop] at h
    injection h with h
    rw [← h]
    exact Reach.refl
  | cons n rest ih =>
    intro st i st2 h
    simp only [nonSundayLoop] at h
    rw [Option.bind_eq_some] at h
    obtain ⟨stP, hstep, h⟩ := h
    rw [Option.bind_eq_some] at h
    obtain ⟨stF, hfill, hrec⟩ := h
    have rstep : Reach st stP := by
      repeat' split at hstep
      all_goals first
      | (obtain ⟨b1, s1, h1, hstep⟩ := tBind_eq_some hstep
         obtain ⟨b2, s2, h2, hstep⟩ := tBind_eq_some hstep
         obtain ⟨b3, h3⟩ := sndSt_eq_some hstep
         exact ((tryAssign_reach h1 (by decide) rfl (by decide)).trans
           (tryAssign_reach h2 (by decide) rfl (by decide))).trans
           (tryAssign_reach h3 (by decide) rfl (by decide)))
      | (obtain ⟨b1, s1, h1, hstep⟩ := tBind_eq_some hstep
         obtain ⟨b2, h2⟩ := sndSt_eq_some hstep
         exact (tryAssign_reach h1 (by decide) rfl (by decide)).trans
           (tryAssign_reach h2 (by decide) rfl (by decide)))
      | (injection hstep with hstep
         rw [← hstep]
         exact Reach.refl)
    exact (rstep.trans (fillRemaining_reach hfill)).trans (ih stF (i + 1) st2 hrec)

theorem assignRegularStaff_reach {st st2 : GenState}
    (h : assignRegularStaff st = some st2) : Reach st st2 := by
  unfold assignRegularStaff at h
  rw [Option.bind_eq_some] at h
  obtain ⟨sw, hsw, h⟩ := h
  rw [Option.bind_eq_some] at h
  obtain ⟨ns, hns, h⟩ := h
  rw [Option.bind_eq_some] at h
  obtain ⟨st1, hst1, h⟩ := h
  rw [Option.bind_eq_some] at h
  obtain ⟨stB, hstB, h⟩ := h
  exact ((sundayWorkersLoop_reach sw st 0 st1 hst1).trans
    (overnightMalesLoop_reach _ st1 stB hstB)).trans
    (nonSundayLoop_reach ns stB 0 st2 h)

theorem extendPass_reach :
    ∀ (ds : List Nat) (st : GenState) (name : String) (needed : Int) (pr : Bool × GenState),
      extendPass st name needed ds = some pr →
      (∀ hh, dget st.hours name = some hh → hh < 40) →
      Reach st pr.2 ∧ (pr.1 = false → pr.2 = st) := by
  intro ds
  induction ds with
  | nil =>
    intro st name needed pr h _
    simp only [extendPass] at h
    injection h with h
    rw [← h]
    exact ⟨Reach.refl, fun _ => rfl⟩
  | cons d rest ih =>
    intro st name needed pr h hlt
    simp only [extendPass] at h
    rw [Option.bind_eq_some] at h
    obtain ⟨row, hrow, h⟩ := h
    rw [Option.bind_eq_some] at h
    obtain ⟨c, hc, h⟩ := h
    cases c with
    | off => exact ih st name needed pr h hlt
    | mk s e =>
      rw [Option.bind_eq_some] at h
      obtain ⟨p, hp, h⟩ := h
      obtain ⟨b1, st1⟩ := p
      cases b1 with
      | true =>
        injection h with h
        rw [← h]
        exact ⟨reach_extend hp hlt, fun hf => by cases hf⟩
      | false =>
        have hst1 : st1 = st := extendShift_false hp
        rw [hst1] at h
        exact ih st name needed pr h hlt

theorem addPass_reach :
    ∀ (ds : List Nat) (st : GenState) (name : String) (needed : Int) (pr : Bool × GenState),
      addPass st name needed ds = some pr → (∀ d ∈ ds, d ≠ 0) →
      Reach st pr.2 := by
  intro ds
  induction ds with
  | nil =>
    intro st name needed pr h _
    simp only [addPass] at h
    injection h with h
    rw [← h]
    exact Reach.refl
  | cons d rest ih =>
    intro st name needed pr h hd
    have hd0 : d ≠ 0 := hd d (List.mem_cons.mpr (Or.inl rfl))
    have hdrest : ∀ x ∈ rest, x ≠ 0 := fun x hx => hd x (List.mem_cons.mpr (Or.inr hx))
    simp only [addPass] at h
    rw [Option.bind_eq_some] at h
    obtain ⟨day, hday, h⟩ := h
    rw [Option.bind_eq_some] at h
    obtain ⟨cw, hcw, h⟩ := h
    split at h
    · exact ih st name needed pr h hdrest
    · rw [Option.bind_eq_some] at h
      obtain ⟨row, hrow, h⟩ := h
      rw [Option.bind_eq_some] at h
      obtain ⟨c, hc, h⟩ := h
      split at h
      · exact ih st name needed pr h hdrest
      · rw [Option.bind_eq_some] at h
        obtain ⟨co, hco, h⟩ := h
        rw [Option.bind_eq_some] at h
        obtain ⟨p, hp, h⟩ := h
        obtain ⟨b1, st1⟩ := p
        have r1 : Reach st st1 := by
          repeat' split at hp
          all_goals exact reach_assign_plain hp hd0 rfl (by decide)
        cases b1 with
        | true =>
          injection h with h
          rw [← h]
          exact r1
        | false =>
          exact r1.trans (ih st1 name needed pr h hdrest)

theorem fineTuneGo_reach :
    ∀ (fuel : Nat) (st : GenState) (name : String) (st2 : GenState),
      fineTuneGo fuel st name = some st2 → Reach st st2 := by
  intro fuel
  induction fuel with
  | zero =>
    intro st name st2 h
    simp only [fineTuneGo] at h
    injection h with h
    rw [← h]
    exact Reach.refl
  | succ f ih =>
    intro st name st2 h
    simp only [fineTuneGo] at h
    rw [Option.bind_eq_some] at h
    obtain ⟨current, hcur, h⟩ := h
    split at h
    · injection h with h
      rw [← h]
      exact Reach.refl
    · rename_i hlt40
      rw [Option.bind_eq_some] at h
      obtain ⟨pe, hpe, h⟩ := h
      have hltfun : ∀ hh, dget st.hours name = some hh → hh < 40 := by
        intro hh hhh
        rw [hcur] at hhh
        injection hhh with hhh
        omega
      have hext := extendPass_reach [0, 1, 2, 3, 4, 5, 6] st name (40 - current) pe hpe hltfun
      split at h
      · exact hext.1.trans (ih pe.2 name st2 h)
      · rename_i hpe1
        have hpe2 : pe.2 = st := hext.2 (by revert hpe1; cases pe.1 <;> simp)
        rw [Option.bind_eq_some] at h
        obtain ⟨pa, hpa, h⟩ := h
        rw [hpe2] at hpa
        have hadd := addPass_reach [1, 2, 3, 4, 5, 6] st name (40 - current) pa hpa
          (by intro x hx; fin_cases hx <;> decide)
        split at h
        · exact hadd.trans (ih pa.2 name st2 h)
        · injection h with h
          rw [← h]
          exact hadd

theorem fineTuneOne_reach {st st2 : GenState} {name : String}
    (h : fineTuneOne st name = some st2) : Reach st st2 := by
  unfold fineTuneOne at h
  rw [Option.bind_eq_some] at h
  obtain ⟨cur, hcur, h⟩ := h
  rw [Option.bind_eq_some] at h
  obtain ⟨staff, hstaff, h⟩ := h
  split at h
  · injection h with h
    rw [← h]
    exact Reach.refl
  · exact fineTuneGo_reach 48 st name st2 h

theorem fineTuneLoop_reach :
    ∀ (names : List String) (st : GenState) (st2 : GenState),
      fineTuneLoop st names = some st2 → Reach st st2 := by
  intro names
  induction names with
  | nil =>
    intro st st2 h
    simp only [fineTuneLoop] at h
    injection h with h
    rw [← h]
    exact Reach.refl
  | cons n rest ih =>
    intro st st2 h
    simp only [fineTuneLoop] at h
    rw [Option.bind_eq_some] at h
    obtain ⟨st1, hst1, h⟩ := h
    exact (fineTuneOne_reach hst1).trans (ih st1 st2 h)

theorem fineTuneHours_reach {st st2 : GenState} (h : fineTuneHours st = some st2) :
    Reach st st2 :=
  fineTuneLoop_reach _ st st2 h

/-! ## The whole pipeline only performs legal steps -/

theorem generateSchedule_reach {st st2 : GenState} (h : generateSchedule st = some st2)
    (hwf : WFStaff st) : Reach st st2 := by
  unfold generateSchedule at h
  rw [Option.bind_eq_some] at h
  obtain ⟨s1, h1, h⟩ := h
  rw [Option.bind_eq_some] at h
  obtain ⟨s2, h2, h⟩ := h
  rw [Option.bind_eq_some] at h
  obtain ⟨s3, h3, h⟩ := h
  rw [Option.bind_eq_some] at h
  obtain ⟨s4, h4, h⟩ := h
  rw [Option.bind_eq_some] at h
  obtain ⟨s5, h5, h⟩ := h
  rw [Option.bind_eq_some] at h
  obtain ⟨s6, h6, h⟩ := h
  have r1 : Reach st s1 := assignSunday_reach h1 hwf
  have r2 : Reach s1 s2 := assignOvernight_reach h2 (reach_wfStaff r1 hwf)
  have r3 : Reach s2 s3 := assignSupervisors_reach h3
  have r4 : Reach s3 s4 := assignRichard_reach h4
  have r5 : Reach s4 s5 := assignAuxiliary_reach h5
  have r6 : Reach s5 s6 := assignRegularStaff_reach h6
  have r7 : Reach s6 st2 := fineTuneHours_reach h
  exact (((((r1.trans r2).trans r3).trans r4).trans r5).trans r6).trans r7

theorem generate_schedule_reach {roster : List StaffMember} {prev : List String}
    {st2 : GenState} (h : generate_schedule roster prev = some st2) :
    Reach (initState roster prev) st2 :=
  generateSchedule_reach h (initState_wfStaff roster prev)

/-! ## Invariants hold initially, hence in every successful run's result -/

theorem initState_hoursLe48 (roster : List StaffMember) (prev : List String) :
    HoursLe48 (initState roster prev) := by
  intro n h hh
  rw [initState_hours roster prev hh]
  decide

theorem initState_sundayFree (roster : List StaffMember) (prev : List String) :
    SundayFree (initState roster prev) := by
  intro n _ _ row hrow
  rw [initState_schedule roster prev hrow]
  rfl

theorem initState_overnightOwners (roster : List StaffMember) (prev : List String) :
    OvernightOwners (initState roster prev) := by
  intro n row d s e hrow hcell h8
  rw [initState_schedule roster prev hrow] at hcell
  have := replicate_get? 7 Cell.off d _ hcell
  exact absurd this (by simp)

theorem initState_cellsWF (roster : List StaffMember) (prev : List String) :
    CellsWF (initState roster prev) := by
  intro n row d s e hrow hcell
  rw [initState_schedule roster prev hrow] at hcell
  have := replicate_get? 7 Cell.off d _ hcell
  exact absurd this (by simp)

theorem initState_hoursMatch (roster : List StaffMember) (prev : List String) :
    HoursMatch (initState roster prev) := by
  intro n h row hh hrow
  rw [initState_hours roster prev hh, initState_schedule roster prev hrow]
  decide

theorem run_hoursLe48 {roster : List StaffMember} {prev : List String} {st2 : GenState}
    (h : generate_schedule roster prev = some st2) : HoursLe48 st2 :=
  reach_preserves (fun _ _ hs => gstep_hoursLe48 hs) (generate_schedule_reach h)
    (initState_hoursLe48 roster prev)

theorem run_sundayFree {roster : List StaffMember} {prev : List String} {st2 : GenState}
    (h : generate_schedule roster prev = some st2) : SundayFree st2 :=
  reach_preserves (fun _ _ hs => gstep_sundayFree hs) (generate_schedule_reach h)
    (initState_sundayFree roster prev)

theorem run_overnightOwners {roster : List StaffMember} {prev : List String} {st2 : GenState}
    (h : generate_schedule roster prev = some st2) : OvernightOwners st2 :=
  reach_preserves (fun _ _ hs => gstep_overnightOwners hs) (generate_schedule_reach h)
    (initState_overnightOwners roster prev)

theorem run_cellsWF_hoursMatch {roster : List StaffMember} {prev : List String}
    {st2 : GenState} (h : generate_schedule roster prev = some st2) :
    CellsWF st2 ∧ HoursMatch st2 :=
  reach_preserves (fun _ _ hs => gstep_cellsWF_hoursMatch hs) (generate_schedule_reach h)
    ⟨initState_cellsWF roster prev, initState_hoursMatch roster prev⟩

theorem run_prev_eq {roster : List StaffMember} {prev : List String} {st2 : GenState}
    (h : generate_schedule roster prev = some st2) :
    st2.previous_sunday_workers = prev :=
  (reach_frame (generate_schedule_reach h)).2

theorem minrun_eq :
    generate_schedule MINROSTER ["DELON", "RICHIE"] = some (MINSTATE ["DELON", "RICHIE"]) := by
  rfl

/-! ## Claim theorems -/

theorem assignShift_cap {st st2 : GenState} {n : String} {d : Nat} {t : String}
    (hh : assignShift st n d t = some (true, st2)) :
    ∀ h2, dget st2.hours n = some h2 → h2 ≤ 48 := by
  rcases assignShift_spec hh with ⟨hb, _⟩ |
    ⟨_, row, s, e, hrs, h0, hrow, hcell, hS, hh0, hcap, rfl⟩
  · exact absurd hb (by simp)
  · intro h2 hv
    dsimp only at hv
    rw [dget_dset_self, hh0] at hv
    simp only [Option.map_some'] at hv
    injection hv with hv
    omega

theorem extendShift_cap {st st2 : GenState} {n : String} {d : Nat} {x : Int}
    (hh : extendShift st n d x = some (true, st2))
    (hlt : ∀ hh2, dget st.hours n = some hh2 → hh2 < 40) :
    ∀ h2, dget st2.hours n = some h2 → h2 ≤ 48 := by
  rcases extendShift_spec hh with ⟨hb, _⟩ |
    ⟨_, row, s, e, h0, hrow, hcell, hsub, hend, hpos, hh0, rfl⟩
  · exact absurd hb (by simp)
  · intro h2 hv
    dsimp only at hv
    rw [dget_dset_self, hh0] at hv
    simp only [Option.map_some'] at hv
    injection hv with hv
    have h40 := hlt h0 hh0
    have hm3 : min (min x (21 - (parseHour e : Int))) 3 ≤ 3 := min_le_right _ _
    omega

/-- Claim C3: the tracked weekly totals never exceed the 48-hour hard cap: an
accepted assignment leaves the assignee's total at most 48 (the candidate is
rejected otherwise), a reconciliation extension (which the pipeline only
applies to staff below 40) leaves the total at most 48, and in the result of
`generate_schedule` every entry of the hours map is at most 48. -/
theorem C3_hour_ceiling :
    (∀ (st st2 : GenState) (n : String) (d : Nat) (t : String),
      assignShift st n d t = some (true, st2) →
      ∀ h2, dget st2.hours n = some h2 → h2 ≤ 48) ∧
    (∀ (st st2 : GenState) (n : String) (d : Nat) (x : Int),
      extendShift st n d x = some (true, st2) →
      (∀ hh2, dget st.hours n = some hh2 → hh2 < 40) →
      ∀ h2, dget st2.hours n = some h2 → h2 ≤ 48) ∧
    (∀ (roster : List StaffMember) (prev : List String) (st2 : GenState),
      generate_schedule roster prev = some st2 →
      ∀ n h, dget st2.hours n = some h → h ≤ 48) :=
  ⟨fun _ _ _ _ _ hh => assignShift_cap hh,
   fun _ _ _ _ _ hh hlt => extendShift_cap hh hlt,
   fun _ _ _ hgen n h hh => run_hoursLe48 hgen n h hh⟩

/-- Claim C3 witness: instantiated at the evaluated `MINROSTER` run, MELLISA's
total of 42 hours is within the cap. -/
theorem C3_hour_ceiling_witness : (42 : Int) ≤ 48 :=
  C3_hour_ceiling.2.2 MINROSTER ["DELON", "RICHIE"] (MINSTATE ["DELON", "RICHIE"])
    minrun_eq "MELLISA" 42 rfl

/-- Claim C1 (counterexample): with `previousAnchorWorkers = ["DELON", "RICHIE"]`
the returned schedule still gives the overnight specialist DELON a non-OFF
Sunday cell (the 8:00 PM – 6:00 AM overnight), so the claim that every listed
staff member — including the overnight specialist — has an OFF anchor-day cell
is false. -/
theorem C1_counterexample :
    "DELON" ∈ (["DELON", "RICHIE"] : List String) ∧
    (generate_schedule MINROSTER ["DELON", "RICHIE"]).map
      (fun st => (dget st.schedule "DELON").map (fun r => r.get? 0)) =
      some (some (some (Cell.mk "8:00 PM" "6:00 AM"))) ∧
    Cell.mk "8:00 PM" "6:00 AM" ≠ Cell.off := by
  refine ⟨by decide, ?_, by decide⟩
  rw [minrun_eq]
  rfl

/-- Claim C1 (amended): for every roster and previousAnchorWorkers list, every
staff member named in the exclusion list whose registered record is not
flagged overnight specialist has an OFF Sunday cell in the returned schedule;
the overnight specialist is exempt, since the source assigns the specialist
the Sunday overnight without consulting the exclusion list. -/
theorem C1_anchor_rotation_amended :
    ∀ (roster : List StaffMember) (prev : List String) (st2 : GenState),
      generate_schedule roster prev = some st2 →
      ∀ n, n ∈ prev →
        (∀ m, dget st2.staff n = some m → m.is_overnight_specialist = false) →
        ∀ row, dget st2.schedule n = some row → row.get? 0 = some Cell.off := by
  intro roster prev st2 h n hmem hns row hrow
  exact run_sundayFree h n (by rw [run_prev_eq h]; exact hmem) hns row hrow

/-- Claim C1 witness: in the evaluated `MINROSTER` run with exclusion list
`["DELON", "RICHIE"]`, the non-specialist RICHIE indeed has an OFF Sunday. -/
theorem C1_anchor_rotation_amended_witness :
    ([Cell.off, Cell.off, Cell.mk "12:00 PM" "9:00 PM", Cell.mk "10:00 AM" "6:00 PM",
      Cell.mk "12:00 PM" "9:00 PM", Cell.mk "12:00 PM" "9:00 PM",
      Cell.mk "2:00 PM" "9:00 PM"] : List Cell).get? 0 = some Cell.off :=
  C1_anchor_rotation_amended MINROSTER ["DELON", "RICHIE"] (MINSTATE ["DELON", "RICHIE"])
    minrun_eq "RICHIE" (by decide)
    (fun m hm => by
      rw [show dget (MINSTATE ["DELON", "RICHIE"]).staff "RICHIE" =
        some { name := "RICHIE", is_supervisor := true, is_male := true } from rfl] at hm
      injection hm with hm
      rw [← hm])
    _ rfl

/-- Claim C6 (counterexample): on a roster where DENTON is not flagged male,
the run still gives DENTON the Friday overnight cell (8:00 PM – 6:00 AM), so
the claim that every overnight-shaped cell belongs to a male non-supervisor
is false for arbitrary rosters. -/
theorem C6_counterexample :
    (generate_schedule [
      { name := "MELLISA", is_supervisor := true },
      { name := "LIYONIE", is_supervisor := true },
      { name := "RICHIE", is_supervisor := true, is_male := true },
      { name := "RICHARD", is_male := true, fixed_day_off := ["SUNDAY", "WEDNESDAY"],
        must_work := ["SATURDAY"] },
      { name := "DENTON" },
      { name := "ORVILLE", is_male := true },
      { name := "ROMONE", is_male := true },
      { name := "DELON", is_male := true, is_overnight_specialist := true },
      { name := "SHARMA", is_auxiliary := true },
      { name := "SASH", is_auxiliary := true }] []).map
      (fun st => ((dget st.schedule "DENTON").map (fun r => r.get? 5),
                  (dget st.staff "DENTON").map (fun m => (m.is_male, m.is_supervisor)))) =
      some (some (some (Cell.mk "8:00 PM" "6:00 AM")), some (false, false)) := by
  rfl

/-- Claim C6 (amended): in every successful run, every overnight-shaped cell
(8:00 PM start) belongs to the overnight specialist or one of the hardcoded
names DENTON, ORVILLE, ROMONE — the code performs no male/supervisor check;
in the reference roster those four staff are all male non-supervisors, so the
claimed property does hold for the reference configuration. -/
theorem C6_overnight_eligibility_amended :
    (∀ (roster : List StaffMember) (prev : List String) (st2 : GenState),
      generate_schedule roster prev = some st2 →
      ∀ n row d s e, dget st2.schedule n = some row → row.get? d = some (Cell.mk s e) →
        s = "8:00 PM" →
        isSpecialistIn st2 n ∨ n = "DENTON" ∨ n = "ORVILLE" ∨ n = "ROMONE") ∧
    (STAFF_ROSTER.all (fun m =>
      !(m.is_overnight_specialist || m.name == "DENTON" || m.name == "ORVILLE" ||
        m.name == "ROMONE") || (m.is_male && !m.is_supervisor)) = true) :=
  ⟨fun _ _ _ hgen n row d s e hrow hcell h8 =>
    run_overnightOwners hgen n row d s e hrow hcell h8,
   by decide⟩

/-- Claim C6 witness: DELON's Sunday overnight cell in the evaluated
`MINROSTER` run is owned by the overnight specialist. -/
theorem C6_overnight_eligibility_amended_witness :
    isSpecialistIn (MINSTATE ["DELON", "RICHIE"]) "DELON" ∨ "DELON" = "DENTON" ∨
      "DELON" = "ORVILLE" ∨ "DELON" = "ROMONE" :=
  C6_overnight_eligibility_amended.1 MINROSTER ["DELON", "RICHIE"]
    (MINSTATE ["DELON", "RICHIE"]) minrun_eq "DELON" _ 0 "8:00 PM" "6:00 AM" rfl rfl rfl

/-- Claim C8: the duration computation parses the two clock times and returns
end − start when end ≥ start and (24 − start) + end when the end hour is
numerically less than the start hour; in particular 8:00 PM to 6:00 AM is 10
hours. -/
theorem C8_duration_wraparound :
    (∀ a b : String, parseHour a ≤ parseHour b →
      calcHours a b = (parseHour b : Int) - parseHour a) ∧
    (∀ a b : String, parseHour b < parseHour a →
      calcHours a b = (24 - (parseHour a : Int)) + parseHour b) ∧
    calcHours "8:00 PM" "6:00 AM" = 10 :=
  ⟨fun _ _ h => calc_of_le h, fun _ _ h => calc_of_lt h, by decide⟩

/-- Claim C8 witness: 6:00 AM to 2:00 PM is 14 − 6 = 8 hours. -/
theorem C8_duration_wraparound_witness :
    calcHours "6:00 AM" "2:00 PM" = (parseHour "2:00 PM" : Int) - parseHour "6:00 AM" :=
  C8_duration_wraparound.1 "6:00 AM" "2:00 PM" (by decide)

/-- Claim C9: generation is deterministic — two runs on equal rosters and
equal previousAnchorWorkers lists produce equal results, equal hours maps,
equal daily counts and equal anchor-day worker lists. -/
theorem C9_determinism :
    ∀ (r1 r2 : List StaffMember) (p1 p2 : List String), r1 = r2 → p1 = p2 →
      generate_schedule r1 p1 = generate_schedule r2 p2 ∧
      (generate_schedule r1 p1).map (fun st => st.hours) =
        (generate_schedule r2 p2).map (fun st => st.hours) ∧
      (generate_schedule r1 p1).bind daily_counts =
        (generate_schedule r2 p2).bind daily_counts ∧
      (generate_schedule r1 p1).bind get_sunday_workers =
        (generate_schedule r2 p2).bind get_sunday_workers := by
  intro r1 r2 p1 p2 hr hp
  subst hr
  subst hp
  exact ⟨rfl, rfl, rfl, rfl⟩

/-- Claim C9 witness: instantiated at the reference roster with an empty
exclusion list. -/
theorem C9_determinism_witness :
    generate_schedule STAFF_ROSTER [] = generate_schedule STAFF_ROSTER [] ∧
    (generate_schedule STAFF_ROSTER []).map (fun st => st.hours) =
      (generate_schedule STAFF_ROSTER []).map (fun st => st.hours) ∧
    (generate_schedule STAFF_ROSTER []).bind daily_counts =
      (generate_schedule STAFF_ROSTER []).bind daily_counts ∧
    (generate_schedule STAFF_ROSTER []).bind get_sunday_workers =
      (generate_schedule STAFF_ROSTER []).bind get_sunday_workers :=
  C9_determinism STAFF_ROSTER STAFF_ROSTER [] [] rfl rfl

/-- Claim C10: the tracked running total always equals the sum of the realized
durations of the staff member's non-OFF cells: both primitive mutations
preserve the correspondence (together with well-formedness of realized cells),
and in the result of `generate_schedule` every entry of the hours map equals
the recomputed row sum. -/
theorem C10_hours_bookkeeping :
    (∀ (st st2 : GenState) (n : String) (d : Nat) (t : String) (b : Bool),
      assignShift st n d t = some (b, st2) →
      CellsWF st ∧ HoursMatch st → CellsWF st2 ∧ HoursMatch st2) ∧
    (∀ (st st2 : GenState) (n : String) (d : Nat) (x : Int) (b : Bool),
      extendShift st n d x = some (b, st2) →
      CellsWF st ∧ HoursMatch st → CellsWF st2 ∧ HoursMatch st2) ∧
    (∀ (roster : List StaffMember) (prev : List String) (st2 : GenState),
      generate_schedule roster prev = some st2 →
      ∀ n h row, dget st2.hours n = some h → dget st2.schedule n = some row →
        h = rowSum row) :=
  ⟨fun _ _ _ _ _ _ hh ha => assignShift_WQ hh ha,
   fun _ _ _ _ _ _ hh ha => extendShift_WQ hh ha,
   fun _ _ _ hgen n h row hh hrow => (run_cellsWF_hoursMatch hgen).2 n h row hh hrow⟩

/-- Claim C10 witness: in the evaluated `MINROSTER` run, MELLISA's tracked 42
hours equal the recomputed sum of her realized cell durations. -/
theorem C10_hours_bookkeeping_witness :
    (42 : Int) = rowSum [Cell.mk "6:00 AM" "9:00 PM", Cell.mk "12:00 PM" "9:00 PM",
      Cell.off, Cell.mk "12:00 PM" "9:00 PM", Cell.mk "12:00 PM" "9:00 PM", Cell.off,
      Cell.off] :=
  C10_hours_bookkeeping.2.2 MINROSTER ["DELON", "RICHIE"] (MINSTATE ["DELON", "RICHIE"])
    minrun_eq "MELLISA" 42 _ rfl rfl

/-- Claim C2 (counterexample): in the reference run, BRITANNIA's Saturday
(last-day) cell ends at 9:00 PM while her Sunday (first-day) cell starts at
6:00 AM and is not OFF, so the rest-after-close property with wraparound from
the last day back to the first day is violated (the source's
`_can_open_next_day` returns True unconditionally for day index 0). -/
theorem C2_counterexample :
    (generate_schedule STAFF_ROSTER []).map
      (fun st => (dget st.schedule "BRITANNIA").map (fun r => (r.get? 6, r.get? 0))) =
      some (some (some (Cell.mk "2:00 PM" "9:00 PM"), some (Cell.mk "6:00 AM" "9:00 PM"))) ∧
    Cell.mk "6:00 AM" "9:00 PM" ≠ Cell.off := by
  refine ⟨?_, by decide⟩
  rfl

/-- Claim C2 (amended): the rest-after-close rule is enforced at assignment
time for within-week day pairs only: a candidate shift starting at the 6:00 AM
early-open boundary on a day of index at least 1 is always rejected, leaving
the state unchanged, when the staff's previous-day cell ends at the 9:00 PM
late-close boundary. The wrapped Saturday-to-Sunday pair is not checked. -/
theorem C2_rest_after_close_amended :
    ∀ (st : GenState) (n : String) (d : Nat) (t : String) (row : List Cell) (c : Cell)
      (e0 : String) (h0 : Int),
      dget st.schedule n = some row → row.get? d = some c →
      d ≠ 0 → closesAt9pm st n (d - 1) = some true →
      SHIFTS t = some ("6:00 AM", e0, h0) →
      assignShift st n d t = some (false, st) := by
  intro st n d t row c e0 h0 hrow hc hd hclose hS
  unfold assignShift
  rw [hrow, Option.some_bind, hc, Option.some_bind]
  split
  · rfl
  · rw [hS, Option.some_bind]
    dsimp only
    rw [if_pos rfl]
    unfold canOpenNextDay
    rw [if_neg hd, hclose]
    rfl

/-- Claim C2 witness: a 6:00 AM morning shift on day 1 is rejected for a staff
member who closes at 9:00 PM on day 0. -/
theorem C2_rest_after_close_amended_witness :
    assignShift WSTATE "W" 1 "morning" = some (false, WSTATE) :=
  C2_rest_after_close_amended WSTATE "W" 1 "morning" _ Cell.off "2:00 PM" 8
    rfl rfl (by decide) rfl rfl

/-- Claim C4 (counterexample): the roster `DUPROSTER` contains two entries
named SASH, yet schedule generation completes normally instead of aborting —
duplicate names are silently tolerated. -/
theorem C4_counterexample :
    ¬ (DUPROSTER.map (fun m => m.name)).Nodup ∧
    (generate_schedule DUPROSTER []).isSome = true := by
  constructor
  · decide
  · rfl

/-- Claim C4 (amended): the constructor's dict comprehension silently
collapses duplicate names — the staff dictionary always has pairwise distinct
keys, and on the duplicate roster generation proceeds with a single SASH entry
carrying the last occurrence's attributes (here `is_male = true`). -/
theorem C4_duplicate_names_amended :
    (∀ (roster : List StaffMember) (prev : List String),
      ((initState roster prev).staff.map Prod.fst).Nodup) ∧
    (generate_schedule DUPROSTER []).map
      (fun st => (st.staff.length, (st.staff.filter (fun p => p.1 == "SASH")).length,
        (dget st.staff "SASH").map (fun m => m.is_male))) =
      some (10, 1, some true) := by
  constructor
  · intro roster prev
    exact buildDict_nodup _ _
  · rfl

/-- Claim C5 (counterexample): ZARA's mustWorkDays contains MONDAY (day index
1), yet in the returned schedule her Monday cell is OFF — the generator never
consults the `must_work` field, so the property fails for rosters other than
the reference one. -/
theorem C5_counterexample :
    (ZROSTER.map (fun m => (m.name, m.must_work))).contains ("ZARA", ["MONDAY"]) = true ∧
    DAYS.get? 1 = some "MONDAY" ∧
    (generate_schedule ZROSTER []).map
      (fun st => (dget st.schedule "ZARA").map (fun r => r.get? 1)) =
      some (some (some Cell.off)) := by
  refine ⟨by decide, by decide, ?_⟩
  rfl

/-- Claim C5 (amended): in the reference roster the only staff member with a
non-empty mustWorkDays set is RICHARD (SATURDAY), and in the reference run
RICHARD's Saturday cell (day index 6) is the non-OFF 12:00 PM – 9:00 PM shift;
the guarantee comes from the hardcoded RICHARD phase and does not extend to
other rosters. -/
theorem C5_must_work_amended :
    (STAFF_ROSTER.all (fun m => (m.must_work == []) || (m.name == "RICHARD")) = true) ∧
    DAYS.get? 6 = some "SATURDAY" ∧
    (generate_schedule STAFF_ROSTER []).map
      (fun st => (dget st.schedule "RICHARD").map (fun r => r.get? 6)) =
      some (some (some (Cell.mk "12:00 PM" "9:00 PM"))) ∧
    Cell.mk "12:00 PM" "9:00 PM" ≠ Cell.off := by
  refine ⟨by decide, by decide, ?_, by decide⟩
  rfl

/-- Claim C7: called as the reconciliation pass calls it (with
`extra = min(needed, 3)` and `needed > 0`), `_extend_shift` on a non-overnight
shift ending before 9:00 PM succeeds and extends the end time and the tracked
total by exactly `min(needed, 3, 21 − currentEnd)`; it never extends an
overnight (8:00 PM-starting) shift; and on the concrete 39-of-40 scenario the
fine-tune pass extends the existing shift by exactly one hour — no new shift —
reaching 40. -/
theorem C7_extension_formula :
    (∀ (st : GenState) (n : String) (d : Nat) (needed : Int) (row : List Cell)
       (start stop : String) (h0 : Int),
      dget st.schedule n = some row →
      row.get? d = some (Cell.mk start stop) →
      containsSub ("8:00 PM".data) start.data = false →
      parseHour stop < 21 →
      0 < needed →
      dget st.hours n = some h0 →
      extendShift st n d (min needed 3) = some (true, { st with
        schedule := dset st.schedule n (row.set d (Cell.mk start
          (fmtHour (((parseHour stop : Int) +
            min (min needed (21 - (parseHour stop : Int))) 3).toNat)))),
        hours := dset st.hours n (h0 + min (min needed (21 - (parseHour stop : Int))) 3) })) ∧
    (∀ (st : GenState) (n : String) (d : Nat) (x : Int) (row : List Cell)
       (start stop : String),
      dget st.schedule n = some row →
      row.get? d = some (Cell.mk start stop) →
      containsSub ("8:00 PM".data) start.data = true →
      extendShift st n d x = some (false, st)) ∧
    fineTuneOne SC7 "W" = some SC7E := by
  refine ⟨?_, ?_, by rfl⟩
  · intro st n d needed row start stop h0 hrow hc hsub hend hpos hh0
    unfold extendShift
    rw [hrow, Option.some_bind, hc, Option.some_bind]
    dsimp only
    rw [if_neg (by rw [hsub]; simp)]
    rw [if_neg (by omega)]
    rw [if_neg (by omega)]
    rw [hh0, Option.some_bind]
    have hmin : min (min (min needed 3) (21 - (parseHour stop : Int))) 3 =
        min (min needed (21 - (parseHour stop : Int))) 3 := by omega
    rw [hmin]
  · intro st n d x row start stop hrow hc hsub
    unfold extendShift
    rw [hrow, Option.some_bind, hc, Option.some_bind]
    dsimp only
    rw [if_pos hsub]

/-- Claim C7 witness: the first conjunct instantiated at `SC7` (needed = 1,
shift 12:00 PM – 7:00 PM): the extension succeeds and adds exactly one hour,
giving the `SC7E` cells and total. -/
theorem C7_extension_formula_witness :
    extendShift SC7 "W" 1 (min 1 3) = some (true, SC7E) := by
  have h := C7_extension_formula.1 SC7 "W" 1 1 _ "12:00 PM" "7:00 PM" 39 rfl rfl
    (by decide) (by decide) (by decide) rfl
  exact h
